import Mathlib

/-!
Verification of the GamingLog watcher (src/main.py) against its
natural-language specification.

Modelling conventions, used throughout:
* Python strings are embedded as `List Nat` of character code points
  (`PyStr`); `pstr` converts a Lean string literal.  `str.lower()` is
  modelled for ASCII letters (`lowerChar`), as is `str.title()`.
* The program targets Windows, so `os.path` is `ntpath`: separators are
  both `\` (92) and `/` (47), drives are `X:` pairs.  UNC `\\server`
  prefixes are not modelled (none of the verified properties involve
  them).
* Timestamps (`datetime`) are embedded as rationals counting seconds;
  Python float arithmetic in `Session.finalize` is modelled as exact
  rational arithmetic, and `round(x, 2)` as round-half-to-even at two
  decimals.
* Python dicts are embedded as insertion-ordered association lists
  (`alookup` / `upsert`), matching dict key order semantics.
* Effectful collaborators (filesystem checks, registry, the sheet
  append call, process liveness) are passed in explicitly as data.
-/

/-- Character codes of a Python string. -/
abbrev PyStr := List Nat

/-- Convert a Lean string literal into its character-code embedding. -/
def pstr (s : String) : PyStr := s.toList.map (fun c => c.toNat)

/-- Model of `str.lower()` on one character (ASCII letters). -/
def lowerChar (c : Nat) : Nat := if 65 ≤ c ∧ c ≤ 90 then c + 32 else c

/-- Model of `str.upper()` on one character (ASCII letters). -/
def upperChar (c : Nat) : Nat := if 97 ≤ c ∧ c ≤ 122 then c - 32 else c

/-- ASCII letter test (the "cased" characters of the model). -/
def isAlphaB (c : Nat) : Bool := decide ((65 ≤ c ∧ c ≤ 90) ∨ (97 ≤ c ∧ c ≤ 122))

/-- Whitespace class of Python's `\s` / `str.strip()` (ASCII part). -/
def isWsB (c : Nat) : Bool := decide (c = 32 ∨ c = 9 ∨ c = 10 ∨ c = 13 ∨ c = 12 ∨ c = 11)

/-- ASCII digit test, for the regex `\d`. -/
def isDigitB (c : Nat) : Bool := decide (48 ≤ c ∧ c ≤ 57)

/-- Model of `str.lower()`. -/
def lowerStr (s : PyStr) : PyStr := s.map lowerChar

/-- Python dict lookup on an insertion-ordered association list. -/
def alookup {κ α : Type} [DecidableEq κ] (k : κ) : List (κ × α) → Option α
  | [] => none
  | (k', v) :: rest => if k = k' then some v else alookup k rest

/-- Python dict assignment `m[k] = v`: replace in place or append. -/
def upsert {κ α : Type} [DecidableEq κ] (m : List (κ × α)) (k : κ) (v : α) :
    List (κ × α) :=
  match m with
  | [] => [(k, v)]
  | (k', v') :: rest => if k' = k then (k, v) :: rest else (k', v') :: upsert rest k v

/-! ## Session lifecycle (class `Session`, src/main.py lines 365-386)

`datetime` values are rationals (seconds); `isoformat` serialization is
not modelled, the payload carries the timestamp values themselves, and
`duration_minutes` is carried as its numeric value (Python stringifies
it for transport with `str`). -/

/-- Truncation toward zero: model of Python `int()` applied to a number. -/
def pyTrunc (q : ℚ) : ℤ := if 0 ≤ q then ⌊q⌋ else ⌈q⌉

/-- Round half to even to an integer: model of Python `round(x)`. -/
def roundHalfEven (q : ℚ) : ℤ :=
  if q - ⌊q⌋ < 1/2 then ⌊q⌋
  else if 1/2 < q - ⌊q⌋ then ⌊q⌋ + 1
  else if Even ⌊q⌋ then ⌊q⌋ else ⌊q⌋ + 1

/-- Model of Python `round(x, 2)`. -/
def pyRound2 (q : ℚ) : ℚ := (roundHalfEven (q * 100) : ℚ) / 100

/-- `SECONDS_TO_MINUTES` constant of src/main.py. -/
def SECONDS_TO_MINUTES : ℚ := 60

/-- The `Session` class: pid, exe name, display name, start time. -/
structure Session where
  pid : Nat
  exe_name : PyStr
  display_name : PyStr
  start_time : ℚ
  deriving DecidableEq

/-- The dict returned by `Session.finalize` (field order of the dict
literal; `start_iso` / `end_iso` carry the underlying timestamps). -/
structure SessionPayload where
  game : PyStr
  exe : PyStr
  start_iso : ℚ
  end_iso : ℚ
  duration_minutes : ℚ
  deriving DecidableEq

/-- `Session.finalize`: duration in whole seconds clamped at zero, then
converted to minutes rounded to two decimals. -/
def Session.finalize (s : Session) (end_time : ℚ) : SessionPayload :=
  let duration_seconds : ℤ := max 0 (pyTrunc (end_time - s.start_time))
  let duration_minutes : ℚ := pyRound2 ((duration_seconds : ℚ) / SECONDS_TO_MINUTES)
  { game := s.display_name
    exe := s.exe_name
    start_iso := s.start_time
    end_iso := end_time
    duration_minutes := duration_minutes }

/-! ## The sheet sink (`ensure_sheet_exists`, `append_session`) -/

/-- One cell of an appended row: a text field or a numeric-origin field
(Python stringifies the latter before upload). -/
inductive Cell where
  | s (v : PyStr)
  | q (v : ℚ)
  deriving DecidableEq

/-- Header row written by `ensure_sheet_exists` (src/main.py line 431). -/
def SHEET_HEADERS : List PyStr :=
  [pstr ("Game"), pstr ("Duration (min)"), pstr ("Started At"), pstr ("Ended At")]

/-- The row built by `append_session` (src/main.py lines 449-454). -/
def append_session_row (p : SessionPayload) : List Cell :=
  [Cell.s p.game, Cell.q p.duration_minutes, Cell.q p.start_iso, Cell.q p.end_iso]

/-! ## Claims C1 and C2 -/

/-- Helper: clamping at zero erases the difference between Python `int`
truncation and mathematical floor. -/
theorem max_zero_pyTrunc_eq_floor (q : ℚ) : max 0 (pyTrunc q) = max 0 ⌊q⌋ := by
  unfold pyTrunc
  split_ifs with h
  · rfl
  · push_neg at h
    have h1 : ⌈q⌉ ≤ 0 := Int.ceil_le.mpr (by exact_mod_cast h.le)
    have h2 : ⌊q⌋ ≤ 0 := Int.floor_nonpos h.le
    rw [max_eq_left h1, max_eq_left h2]

/-- Helper: rounding half to even preserves nonnegativity. -/
theorem roundHalfEven_nonneg {q : ℚ} (h : 0 ≤ q) : 0 ≤ roundHalfEven q := by
  unfold roundHalfEven
  have hf : (0 : ℤ) ≤ ⌊q⌋ := Int.floor_nonneg.mpr h
  split_ifs <;> omega

/-- Helper: `round(x, 2)` preserves nonnegativity. -/
theorem pyRound2_nonneg {q : ℚ} (h : 0 ≤ q) : 0 ≤ pyRound2 q := by
  unfold pyRound2
  have : (0 : ℚ) ≤ (roundHalfEven (q * 100) : ℚ) := by
    exact_mod_cast roundHalfEven_nonneg (by positivity)
  positivity

/-- C2: for every Session with start time `s` and finalize time `e`, the
recorded `duration_minutes` equals `round(max(0, floor(e - s in
seconds)) / 60, 2)`, and it is never negative, even when `e < s`. -/
theorem finalize_duration_matches_spec (s : Session) (e : ℚ) :
    (s.finalize e).duration_minutes
        = pyRound2 (((max 0 ⌊e - s.start_time⌋ : ℤ) : ℚ) / 60)
      ∧ 0 ≤ (s.finalize e).duration_minutes := by
  constructor
  · show pyRound2 (((max 0 (pyTrunc (e - s.start_time)) : ℤ) : ℚ) / SECONDS_TO_MINUTES)
        = pyRound2 (((max 0 ⌊e - s.start_time⌋ : ℤ) : ℚ) / 60)
    rw [max_zero_pyTrunc_eq_floor]
    rfl
  · show 0 ≤ pyRound2 (((max 0 (pyTrunc (e - s.start_time)) : ℤ) : ℚ) / SECONDS_TO_MINUTES)
    apply pyRound2_nonneg
    have h0 : (0 : ℤ) ≤ max 0 (pyTrunc (e - s.start_time)) := le_max_left 0 _
    have h0q : (0 : ℚ) ≤ ((max 0 (pyTrunc (e - s.start_time)) : ℤ) : ℚ) := by
      exact_mod_cast h0
    unfold SECONDS_TO_MINUTES
    positivity

/-- C1 counterexample: at a concrete finalized payload, the persisted
row is not the claimed five-column layout
`[endTimestamp, game, startTimestamp, endTimestamp, durationMinutes]`
(the code appends four cells: game, duration, start, end). -/
theorem append_row_not_five_columns :
    append_session_row
        { game := pstr ("ELDEN RING"), exe := pstr ("eldenring.exe")
          start_iso := 0, end_iso := 300, duration_minutes := 5 }
      ≠ [Cell.q 300, Cell.s (pstr ("ELDEN RING")), Cell.q 0, Cell.q 300, Cell.q 5] := by
  decide

/-- C1 amended: the row persisted for a finalized session has exactly the
fixed four-column order `[game, durationMinutes, startTimestamp,
endTimestamp]`, matching the header row written by
`ensure_sheet_exists`; no column is duplicated. -/
theorem append_row_fixed_order (s : Session) (e : ℚ) :
    append_session_row (s.finalize e)
        = [Cell.s s.display_name, Cell.q (s.finalize e).duration_minutes,
           Cell.q s.start_time, Cell.q e]
      ∧ (append_session_row (s.finalize e)).length = SHEET_HEADERS.length :=
  ⟨rfl, rfl⟩

/-! ## `ntpath` model (the program runs on Windows, so `os.path` is
`ntpath`): separators, drive splitting, `normpath`, `basename`,
`splitext`, `normcase`. -/

/-- `os.path.normcase` character step: `/` becomes `\` (before lowercasing). -/
def slashFix (c : Nat) : Nat := if c = 47 then 92 else c

/-- Model of `ntpath.normcase`: map `/` to `\` and lowercase. -/
def normcase (s : PyStr) : PyStr := lowerStr (s.map slashFix)

/-- Model of `ntpath.splitdrive` (drive-letter form `X:`; UNC prefixes
are not modelled). -/
def splitdrive (s : PyStr) : PyStr × PyStr :=
  match s with
  | a :: b :: rest => if b = 58 then ([a, b], rest) else ([], s)
  | _ => ([], s)

/-- Python `str.split(sep)` for a one-character separator. -/
def splitOnChar (sep : Nat) (s : PyStr) : List PyStr :=
  s.foldr
    (fun c r =>
      if c = sep then [] :: r
      else
        match r with
        | [] => [[c]]
        | h :: t => (c :: h) :: t)
    [[]]

/-- Python `sep.join(parts)` for a one-character separator. -/
def joinWith (sep : Nat) : List PyStr → PyStr
  | [] => []
  | [x] => x
  | x :: xs => x ++ sep :: joinWith sep xs

/-- One component step of `ntpath.normpath`'s `.`/`..` elimination; the
accumulator holds the kept components in reverse order. -/
def normSt (rooted : Bool) (acc : List PyStr) (comp : PyStr) : List PyStr :=
  if comp = [] ∨ comp = [46] then acc
  else if comp = [46, 46] then
    match acc with
    | [] => if rooted then [] else [comp]
    | a :: rest => if a = [46, 46] then comp :: acc else rest
  else comp :: acc

/-- Model of `ntpath.normpath` (drive-letter paths; UNC and device
prefixes are not modelled). -/
def normpath (p : PyStr) : PyStr :=
  let q := p.map slashFix
  let dr := splitdrive q
  let rooted : Bool := dr.2.head? == some 92
  let body := dr.2.dropWhile (fun c => c == 92)
  let comps := ((splitOnChar 92 body).foldl (normSt rooted) []).reverse
  let anchor := dr.1 ++ (if rooted then [92] else [])
  if anchor = [] ∧ comps = [] then [46]
  else anchor ++ joinWith 92 comps

/-- Model of `ntpath.basename`: the part after the last separator of
either kind, the drive prefix removed first. -/
def basename (p : PyStr) : PyStr :=
  ((splitdrive p).2.reverse.takeWhile (fun c => !(c == 92 || c == 47))).reverse

/-- Model of Python `str.rfind` for a single character: highest index,
`-1` when absent. -/
def pyRfind (c : Nat) (s : PyStr) : Int :=
  match s.reverse.findIdx? (fun d => d == c) with
  | some i => (s.length : Int) - 1 - (i : Int)
  | none => -1

/-- The first component of `ntpath.splitext`: drop the final dot suffix
unless the filename portion consists only of leading dots. -/
def splitextStem (p : PyStr) : PyStr :=
  let sepIdx := max (pyRfind 92 p) (pyRfind 47 p)
  let dotIdx := pyRfind 46 p
  if sepIdx < dotIdx then
    let fname := (p.drop (sepIdx + 1).toNat).take (dotIdx - sepIdx - 1).toNat
    if fname.any (fun c => !(c == 46)) then p.take dotIdx.toNat else p
  else p

/-- Model of `str.strip()`: drop whitespace at both ends. -/
def pyStrip (s : PyStr) : PyStr :=
  ((s.dropWhile isWsB).reverse.dropWhile isWsB).reverse

/-! ## Allowlist configuration and classifier
(`parse_games_env`, `DEFAULT_GAMES`, `detect_running_games`) -/

/-- `DEFAULT_GAMES` of src/main.py (lines 49-55). -/
def DEFAULT_GAMES : List (PyStr × PyStr) :=
  [(pstr ("eldenring.exe"), pstr ("ELDEN RING")),
   (pstr ("witcher3.exe"), pstr ("The Witcher 3")),
   (pstr ("apex.exe"), pstr ("Apex Legends")),
   (pstr ("fortniteclient-win64-shipping.exe"), pstr ("Fortnite")),
   (pstr ("league of legends.exe"), pstr ("League of Legends"))]

/-- Entry list of the `GAMES` variable: split on `;`, strip each part,
drop empties (the comprehension in `parse_games_env`). -/
def gamesEntries (games_env : PyStr) : List PyStr :=
  ((splitOnChar 59 games_env).map pyStrip).filter (fun e => !e.isEmpty)

/-- Loop body of `parse_games_env`: fold one entry into the mapping. -/
def parseGamesStep (m : List (PyStr × PyStr)) (entry : PyStr) :
    List (PyStr × PyStr) :=
  if 61 ∈ entry then
    let exe := lowerStr (pyStrip (entry.takeWhile (fun c => !(c == 61))))
    let name := pyStrip ((entry.dropWhile (fun c => !(c == 61))).drop 1)
    if exe = [] then m
    else upsert m exe (if name = [] then exe else name)
  else
    let exe := lowerStr (pyStrip entry)
    if exe = [] then m
    else upsert m exe (splitextStem (basename exe))

/-- `parse_games_env` (src/main.py lines 72-90). -/
def parse_games_env (games_env : PyStr) : List (PyStr × PyStr) :=
  (gamesEntries games_env).foldl parseGamesStep []

/-- One entry of a `psutil.process_iter` snapshot: pid, name, exe path
and resident memory, each possibly unresolvable. -/
structure ProcInfo where
  pid : Nat
  name : Option PyStr
  exe : Option PyStr
  rss : Option Nat
  deriving DecidableEq

/-- The `name` local of the `detect_running_games` loop body. -/
def procNameKey (p : ProcInfo) : PyStr := lowerStr (p.name.getD [])

/-- The `base` local of the `detect_running_games` loop body. -/
def procBaseKey (p : ProcInfo) : PyStr :=
  if p.exe.getD [] = [] then procNameKey p else lowerStr (basename (p.exe.getD []))

/-- Loop body of `detect_running_games` (src/main.py lines 484-508): the
allowlist-based classification of one process snapshot. -/
def classify_allow (game_map : List (PyStr × PyStr)) (p : ProcInfo) :
    Option (PyStr × PyStr) :=
  let name := procNameKey p
  if name = [] then none
  else
    let base := procBaseKey p
    if base = [] then none
    else
      match alookup name game_map with
      | some v => some (name, v)
      | none =>
        match alookup base game_map with
        | some v => some (base, v)
        | none => none

/-! ## Claims C7, C8, C10 -/

/-- Helper: looking up the key just written by a dict assignment. -/
theorem alookup_upsert_self {κ α : Type} [DecidableEq κ]
    (m : List (κ × α)) (k : κ) (v : α) : alookup k (upsert m k v) = some v := by
  induction m with
  | nil => simp [upsert, alookup]
  | cons h t ih =>
    obtain ⟨k', v'⟩ := h
    by_cases hk : k' = k
    · subst hk
      simp [upsert, alookup]
    · simp only [upsert, if_neg hk, alookup]
      rw [if_neg (fun he => hk he.symm)]
      exact ih

/-- Helper: a dict assignment leaves other keys unchanged. -/
theorem alookup_upsert_other {κ α : Type} [DecidableEq κ]
    (m : List (κ × α)) (k k' : κ) (v : α) (h : k ≠ k') :
    alookup k (upsert m k' v) = alookup k m := by
  induction m with
  | nil => simp [upsert, alookup, h]
  | cons hd t ih =>
    obtain ⟨k₀, v₀⟩ := hd
    by_cases hk : k₀ = k'
    · subst hk
      simp [upsert, alookup, h]
    · simp only [upsert, if_neg hk, alookup]
      by_cases hkk : k = k₀ <;> simp [hkk, ih]

/-- The mapping key written by one `GAMES` entry. -/
def entryKey (entry : PyStr) : PyStr :=
  if 61 ∈ entry then lowerStr (pyStrip (entry.takeWhile (fun c => !(c == 61))))
  else lowerStr (pyStrip entry)

/-- Helper: an entry writing a different key leaves `k`'s binding alone. -/
theorem parseGamesStep_other {m : List (PyStr × PyStr)} {entry k : PyStr}
    (h : entryKey entry ≠ k) :
    alookup k (parseGamesStep m entry) = alookup k m := by
  unfold parseGamesStep
  unfold entryKey at h
  by_cases he : 61 ∈ entry
  · rw [if_pos he]
    rw [if_pos he] at h
    dsimp only
    split_ifs <;>
      first
        | rfl
        | exact alookup_upsert_other _ _ _ _ (fun hk => h (hk.symm))
  · rw [if_neg he]
    rw [if_neg he] at h
    dsimp only
    split_ifs <;>
      first
        | rfl
        | exact alookup_upsert_other _ _ _ _ (fun hk => h (hk.symm))

/-- Helper: folding entries none of which writes `k` preserves `k`'s binding. -/
theorem foldl_parseGamesStep_other {l : List PyStr} {k : PyStr}
    (h : ∀ e ∈ l, entryKey e ≠ k) (m : List (PyStr × PyStr)) :
    alookup k (l.foldl parseGamesStep m) = alookup k m := by
  induction l generalizing m with
  | nil => rfl
  | cons e t ih =>
    rw [List.foldl_cons, ih (fun x hx => h x (List.mem_cons_of_mem e hx))]
    exact parseGamesStep_other (h e (List.mem_cons_self e t))

/-- Helper: the head surviving a `dropWhile` fails the predicate. -/
theorem head_dropWhile_false {α : Type} {p : α → Bool} {l : List α} {x : α}
    (h : (l.dropWhile p).head? = some x) : p x = false := by
  induction l with
  | nil => simp [List.dropWhile] at h
  | cons c t ih =>
    rw [List.dropWhile_cons] at h
    by_cases hc : p c
    · rw [if_pos hc] at h
      exact ih h
    · rw [if_neg hc] at h
      simp only [List.head?_cons, Option.some.injEq] at h
      subst h
      simpa using hc

/-- Helper: `dropWhile` is idempotent. -/
theorem dropWhile_dropWhile {α : Type} (p : α → Bool) (l : List α) :
    (l.dropWhile p).dropWhile p = l.dropWhile p := by
  cases h : l.dropWhile p with
  | nil => rfl
  | cons x t =>
    have hx : p x = false := head_dropWhile_false (by rw [h]; rfl)
    rw [List.dropWhile_cons, if_neg (by simp [hx])]

/-- Helper: `str.strip()` is idempotent. -/
theorem pyStrip_idem (s : PyStr) : pyStrip (pyStrip s) = pyStrip s := by
  unfold pyStrip
  have h1 : ((s.dropWhile isWsB).reverse.dropWhile isWsB).reverse.dropWhile isWsB
      = ((s.dropWhile isWsB).reverse.dropWhile isWsB).reverse := by
    cases hvr : ((s.dropWhile isWsB).reverse.dropWhile isWsB).reverse with
    | nil => rfl
    | cons x t =>
      have hu : s.dropWhile isWsB
          = ((s.dropWhile isWsB).reverse.takeWhile isWsB
              ++ (s.dropWhile isWsB).reverse.dropWhile isWsB).reverse := by
        rw [List.takeWhile_append_dropWhile, List.reverse_reverse]
      have hx : (s.dropWhile isWsB).head? = some x := by
        rw [hu, List.reverse_append, hvr]
        simp
      have hxf : isWsB x = false := head_dropWhile_false hx
      rw [List.dropWhile_cons, if_neg (by simp [hxf])]
  rw [h1, List.reverse_reverse, dropWhile_dropWhile]

/-- Helper: members of the parsed `GAMES` entry list are stripped and
nonempty. -/
theorem gamesEntries_stripped {env entry : PyStr} (h : entry ∈ gamesEntries env) :
    pyStrip entry = entry ∧ entry ≠ [] := by
  unfold gamesEntries at h
  rw [List.mem_filter] at h
  obtain ⟨hmem, hne⟩ := h
  rw [List.mem_map] at hmem
  obtain ⟨x, _, rfl⟩ := hmem
  refine ⟨pyStrip_idem x, ?_⟩
  intro hnil
  rw [hnil] at hne
  simp at hne

/-- C7: an allowlist configuration entry lacking a display name
(`exe` with no `=`) makes parsing map the lowercased executable to the
stem of that executable's basename (filename with extension removed),
provided no later entry writes the same key. -/
theorem parse_games_env_defaults_to_stem (env : PyStr) (l1 l2 : List PyStr)
    (entry : PyStr)
    (hsplit : gamesEntries env = l1 ++ entry :: l2)
    (hnoeq : 61 ∉ entry)
    (hlater : ∀ e ∈ l2, entryKey e ≠ lowerStr entry) :
    alookup (lowerStr entry) (parse_games_env env)
      = some (splitextStem (basename (lowerStr entry))) := by
  have hmem : entry ∈ gamesEntries env := by
    rw [hsplit]
    exact List.mem_append_right _ (List.mem_cons_self _ _)
  obtain ⟨hstrip, hne⟩ := gamesEntries_stripped hmem
  unfold parse_games_env
  rw [hsplit, List.foldl_append, List.foldl_cons,
      foldl_parseGamesStep_other hlater]
  unfold parseGamesStep
  rw [if_neg hnoeq]
  dsimp only
  rw [hstrip]
  have hne2 : lowerStr entry ≠ [] := by
    intro hx
    exact hne (by simpa [lowerStr] using hx)
  rw [if_neg hne2]
  exact alookup_upsert_self _ _ _

/-- C7 witness: parsing `"hl2.exe;witcher3.exe=The Witcher 3"` maps
`hl2.exe` to its stem `hl2`. -/
theorem parse_games_env_defaults_to_stem_witness :
    alookup (lowerStr (pstr ("hl2.exe")))
        (parse_games_env (pstr ("hl2.exe;witcher3.exe=The Witcher 3")))
      = some (splitextStem (basename (lowerStr (pstr ("hl2.exe")))))
      ∧ splitextStem (basename (lowerStr (pstr ("hl2.exe")))) = pstr ("hl2") :=
  ⟨parse_games_env_defaults_to_stem
      (pstr ("hl2.exe;witcher3.exe=The Witcher 3"))
      [] [pstr ("witcher3.exe=The Witcher 3")] (pstr ("hl2.exe"))
      (by decide) (by decide) (by decide),
   by decide⟩

/-- C8 counterexample: a snapshot whose lowercased process name is a key
of the mapping but whose executable path (`c:\`) has an empty basename
never matches: the code skips it on `if not base: continue`, falsifying
the claimed "matches iff its name or its executable basename is a key". -/
theorem classify_allow_empty_basename_no_match :
    classify_allow DEFAULT_GAMES
        { pid := 1, name := some (pstr ("eldenring.exe")),
          exe := some (pstr ("c:\\")), rss := none } = none
      ∧ alookup (lowerStr (pstr ("eldenring.exe"))) DEFAULT_GAMES ≠ none := by
  decide

/-- C8 amended: the allowlist classifier matches a snapshot iff its
lowercased name is nonempty, its effective basename key (lowercased
executable basename when a nonempty executable path is present,
otherwise the name) is nonempty, and the name key or the basename key is
a key of the mapping. -/
theorem classify_allow_match_iff (m : List (PyStr × PyStr)) (p : ProcInfo) :
    (∃ g, classify_allow m p = some g)
      ↔ procNameKey p ≠ [] ∧ procBaseKey p ≠ []
          ∧ (alookup (procNameKey p) m ≠ none ∨ alookup (procBaseKey p) m ≠ none) := by
  unfold classify_allow
  dsimp only
  by_cases h1 : procNameKey p = []
  · simp [h1]
  · rw [if_neg h1]
    by_cases h2 : procBaseKey p = []
    · simp [h1, h2]
    · rw [if_neg h2]
      cases hn : alookup (procNameKey p) m with
      | some v => simp [h1, h2, hn]
      | none =>
        cases hb : alookup (procBaseKey p) m with
        | some v => simp [h1, h2, hn, hb]
        | none => simp [h1, h2, hn, hb]

/-- C10: with both guards passed, a mapping entry for the process name
takes precedence; the basename entry is used only when the name is not a
key. -/
theorem classify_allow_name_precedence (m : List (PyStr × PyStr)) (p : ProcInfo)
    (h1 : procNameKey p ≠ []) (h2 : procBaseKey p ≠ []) :
    (∀ v, alookup (procNameKey p) m = some v →
        classify_allow m p = some (procNameKey p, v))
      ∧ (alookup (procNameKey p) m = none →
          ∀ w, alookup (procBaseKey p) m = some w →
            classify_allow m p = some (procBaseKey p, w)) := by
  unfold classify_allow
  dsimp only
  rw [if_neg h1, if_neg h2]
  constructor
  · intro v hv
    rw [hv]
  · intro hn w hw
    rw [hn, hw]

/-- C10 witness: name `game.exe` and basename `other.exe` are distinct
keys bound to different display names; the classifier returns the name's
entry. -/
theorem classify_allow_name_precedence_witness :
    classify_allow
        [(pstr ("game.exe"), pstr ("Name Entry")),
         (pstr ("other.exe"), pstr ("Base Entry"))]
        { pid := 7, name := some (pstr ("GAME.exe")),
          exe := some (pstr ("c:\\g\\other.exe")), rss := none }
      = some (pstr ("game.exe"), pstr ("Name Entry")) := by
  have h := (classify_allow_name_precedence
      [(pstr ("game.exe"), pstr ("Name Entry")),
       (pstr ("other.exe"), pstr ("Base Entry"))]
      { pid := 7, name := some (pstr ("GAME.exe")),
        exe := some (pstr ("c:\\g\\other.exe")), rss := none }
      (by decide) (by decide)).1 (pstr ("Name Entry")) (by decide)
  have hk : procNameKey
      { pid := 7, name := some (pstr ("GAME.exe")),
        exe := some (pstr ("c:\\g\\other.exe")), rss := none } = pstr ("game.exe") := by
    decide
  rw [hk] at h
  exact h

/-! ## pathlib model (`PureWindowsPath`), `_nice_title`,
`os.path.relpath`, and the Steam path classifier. -/

/-- Parsed form of a `pathlib.PureWindowsPath`: drive, rootedness and
components (empty and `.` components are dropped by the parser; `..` is
kept).  UNC prefixes are not modelled. -/
structure PyPath where
  drive : PyStr
  root : Bool
  comps : List PyStr
  deriving DecidableEq

/-- Model of `PureWindowsPath(p)` parsing. -/
def parsePath (p : PyStr) : PyPath :=
  let q := p.map slashFix
  let dr := splitdrive q
  let rooted : Bool := dr.2.head? == some 92
  let comps := (splitOnChar 92 dr.2).filter (fun c => !c.isEmpty && !(c == [46]))
  ⟨dr.1, rooted, comps⟩

/-- Model of `str(PureWindowsPath(p))` (an empty path prints as `.`). -/
def pathStr (pp : PyPath) : PyStr :=
  let anchor := pp.drive ++ (if pp.root then [92] else [])
  if anchor = [] ∧ pp.comps = [] then [46]
  else anchor ++ joinWith 92 pp.comps

/-- Model of `PurePath.parts`: the anchor, when present, is the first
part. -/
def pathParts (pp : PyPath) : List PyStr :=
  let anchor := pp.drive ++ (if pp.root then [92] else [])
  (if anchor = [] then [] else [anchor]) ++ pp.comps

/-- Model of `PurePath.parent`. -/
def pathParent (pp : PyPath) : PyPath :=
  ⟨pp.drive, pp.root, pp.comps.dropLast⟩

/-- Model of `PurePath.name`. -/
def pathName (pp : PyPath) : PyStr := (pp.comps.getLast?).getD []

/-- The stem rule of pathlib: the name loses its last dot suffix only
when the last dot sits strictly inside the name. -/
def stemOf (n : PyStr) : PyStr :=
  let i := pyRfind 46 n
  if 0 < i ∧ i < (n.length : Int) - 1 then n.take i.toNat else n

/-- State machine of the regex substitution `[_\-]+ -> " "` in
`_nice_title`; the flag records whether the previous character belonged
to a dash run. -/
def subDashesGo : Bool → PyStr → PyStr
  | _, [] => []
  | prevDash, c :: cs =>
    if c = 95 ∨ c = 45 then
      (if prevDash then subDashesGo true cs else 32 :: subDashesGo true cs)
    else c :: subDashesGo false cs

/-- The regex substitution `[_\-]+ -> " "`. -/
def subDashes (s : PyStr) : PyStr := subDashesGo false s

/-- State machine of the regex substitution `\s{2,} -> " "`: a maximal
whitespace run of length at least two becomes one space, a single
whitespace character stays. -/
def collapseGo : Bool → PyStr → PyStr
  | _, [] => []
  | true, c :: cs =>
    if isWsB c then collapseGo true cs else c :: collapseGo false cs
  | false, c :: cs =>
    if isWsB c then
      match cs with
      | [] => [c]
      | d :: _ =>
        if isWsB d then 32 :: collapseGo true cs else c :: collapseGo false cs
    else c :: collapseGo false cs

/-- The regex substitution `\s{2,} -> " "`. -/
def collapseWs (s : PyStr) : PyStr := collapseGo false s

/-- Model of `str.title()` (ASCII): the first letter after a non-cased
character is uppercased, subsequent letters are lowercased. -/
def titleGo : Bool → PyStr → PyStr
  | _, [] => []
  | prevCased, c :: cs =>
    (if isAlphaB c then (if prevCased then lowerChar c else upperChar c) else c)
      :: titleGo (isAlphaB c) cs

/-- Model of `str.title()`. -/
def pyTitle (s : PyStr) : PyStr := titleGo false s

/-- `_nice_title` (src/main.py lines 195-199). -/
def nice_title (name : PyStr) : PyStr :=
  let t := collapseWs (pyStrip (subDashes name))
  if t = [] then name else pyTitle t

/-- Common-prefix length of two component lists, compared through
`normcase` as in `ntpath.relpath`. -/
def commonLen : List PyStr → List PyStr → Nat
  | a :: as, b :: bs => if normcase a = normcase b then commonLen as bs + 1 else 0
  | _, _ => 0

/-- Model of `ntpath.relpath(path, start)`; `abspath` is modelled as
`normpath` (the working directory is not modelled; the caller passes
absolute paths).  `none` models the `ValueError` raised on an empty
path or on mismatched drives. -/
def pyRelpath (path start : PyStr) : Option PyStr :=
  if path = [] then none
  else
    let pd := splitdrive (normpath path)
    let sd := splitdrive (normpath start)
    if normcase pd.1 ≠ normcase sd.1 then none
    else
      let pl := (splitOnChar 92 pd.2).filter (fun c => !c.isEmpty)
      let sl := (splitOnChar 92 sd.2).filter (fun c => !c.isEmpty)
      let i := commonLen sl pl
      let rel := List.replicate (sl.length - i) [46, 46] ++ pl.drop i
      if rel = [] then some [46] else some (joinWith 92 rel)

/-- The `for lib in library_common_dirs` loop of
`derive_game_name_from_path`: first matching root wins; a failed
`relpath` or an empty part list falls through to the next root. -/
def deriveLoop (exe_lower : PyStr) : List PyStr → Option PyStr
  | [] => none
  | lib :: rest =>
    let lib_lower := normcase lib
    if lib_lower.isPrefixOf exe_lower then
      match pyRelpath exe_lower lib_lower with
      | none => deriveLoop exe_lower rest
      | some rel =>
        match (pathParts (parsePath rel)).filter
            (fun q => !(q == [92]) && !(q == [47]) && !q.isEmpty) with
        | [] => deriveLoop exe_lower rest
        | q :: _ => some (nice_title q)
    else deriveLoop exe_lower rest

/-- `derive_game_name_from_path` (src/main.py lines 202-224). -/
def derive_game_name_from_path (exe_path : PyStr)
    (library_common_dirs : List PyStr) : PyStr :=
  let exe := parsePath exe_path
  let exe_lower := normcase (pathStr exe)
  match deriveLoop exe_lower library_common_dirs with
  | some t => t
  | none =>
    let pn := pathName (pathParent exe)
    nice_title (if pn = [] then stemOf (pathName exe) else pn)

/-- `EXCLUDED_EXE_NAMES` (src/main.py lines 64-69). -/
def EXCLUDED_EXE_NAMES : List PyStr :=
  [pstr ("steam.exe"), pstr ("steamservice.exe"),
   pstr ("steamwebhelper.exe"), pstr ("steamerrorreporter.exe")]

/-- `MIN_MEMORY_BYTES`: the 2 GiB resident-memory floor of
`detect_running_games_steam`. -/
def MIN_MEMORY_BYTES : Nat := 2 * 1024 * 1024 * 1024

/-- Loop body of `detect_running_games_steam` (src/main.py lines
237-255): the path-based classification of one process snapshot. -/
def classify_steam (library_common_dirs : List PyStr) (p : ProcInfo) :
    Option (PyStr × PyStr) :=
  let exe_path := p.exe.getD []
  if exe_path = [] then none
  else
    let base := lowerStr (basename exe_path)
    if base ∈ EXCLUDED_EXE_NAMES then none
    else
      let exe_norm := normcase (normpath exe_path)
      if library_common_dirs.any (fun lib => lib.isPrefixOf exe_norm) then
        match p.rss with
        | none => none
        | some rss =>
          if MIN_MEMORY_BYTES ≤ rss then
            some (base, derive_game_name_from_path exe_path library_common_dirs)
          else none
      else none

/-! ## Claim C3 -/

/-- C3: for every snapshot with a resolvable executable path, the
path-based classifier matches iff the lowercased basename is outside the
exclusion set, the normalized executable path has one of the library
roots as a prefix, and the resident memory is resolvable and at least
2 GiB; in particular below 2 GiB it never matches. -/
theorem classify_steam_match_iff (library_common_dirs : List PyStr)
    (p : ProcInfo) (s : PyStr) (hexe : p.exe = some s) (hs : s ≠ []) :
    (∃ g, classify_steam library_common_dirs p = some g)
      ↔ lowerStr (basename s) ∉ EXCLUDED_EXE_NAMES
          ∧ (∃ lib ∈ library_common_dirs, lib <+: normcase (normpath s))
          ∧ (∃ m, p.rss = some m ∧ MIN_MEMORY_BYTES ≤ m) := by
  unfold classify_steam
  rw [hexe]
  simp only [Option.getD_some]
  rw [if_neg hs]
  by_cases hb : lowerStr (basename s) ∈ EXCLUDED_EXE_NAMES
  · simp [hb]
  · rw [if_neg hb]
    by_cases hpre :
        (library_common_dirs.any fun lib => lib.isPrefixOf (normcase (normpath s))) = true
    · rw [if_pos hpre]
      rw [List.any_eq_true] at hpre
      simp only [List.isPrefixOf_iff_prefix] at hpre
      cases hrss : p.rss with
      | none =>
        constructor
        · rintro ⟨g, hg⟩
          exact absurd hg (by simp)
        · rintro ⟨-, -, m, hm, -⟩
          exact absurd hm (by simp)
      | some rss =>
        dsimp only
        by_cases hm : MIN_MEMORY_BYTES ≤ rss
        · rw [if_pos hm]
          constructor
          · intro _
            exact ⟨hb, hpre, rss, rfl, hm⟩
          · intro _
            exact ⟨_, rfl⟩
        · rw [if_neg hm]
          constructor
          · rintro ⟨g, hg⟩
            exact absurd hg (by simp)
          · rintro ⟨-, -, m, hm2, hmm⟩
            injection hm2 with h'
            rw [h'] at hm
            exact absurd hmm hm
    · rw [if_neg hpre]
      constructor
      · rintro ⟨g, hg⟩
        exact absurd hg (by simp)
      · rintro ⟨-, hlib, -⟩
        rw [List.any_eq_true] at hpre
        simp only [List.isPrefixOf_iff_prefix] at hpre
        exact absurd hlib hpre

/-- C3 witness: a 3 GiB process under the resolved root
`c:\steam\steamapps\common` with a non-excluded basename matches. -/
theorem classify_steam_match_iff_witness :
    ∃ g, classify_steam [pstr ("c:\\steam\\steamapps\\common")]
        { pid := 42, name := none,
          exe := some (pstr ("C:\\Steam\\steamapps\\common\\Elden Ring\\eldenring.exe")),
          rss := some 3221225472 } = some g :=
  (classify_steam_match_iff [pstr ("c:\\steam\\steamapps\\common")] _ _ rfl
      (by decide)).mpr
    ⟨by decide,
     ⟨pstr ("c:\\steam\\steamapps\\common"), by decide,
      List.isPrefixOf_iff_prefix.mp (by decide)⟩,
     3221225472, rfl, by decide⟩

/-! ## The watcher loop (`run_watcher`, src/main.py lines 569-621) -/

/-- Per-tick external inputs: this tick's classification result
(the `running` dict), OS pid liveness (`psutil.pid_exists`), and the
tick's clock value. -/
structure TickInput where
  running : List (Nat × (PyStr × PyStr))
  alive : Nat → Bool
  now : ℚ

/-- First half of a tick (src/main.py lines 580-589): start a Session
for every newly detected pid; an existing pid is left untouched. -/
def tick_start (st : List (Nat × Session))
    (running : List (Nat × (PyStr × PyStr))) (now : ℚ) : List (Nat × Session) :=
  running.foldl
    (fun acc pr =>
      if alookup pr.1 acc = none then
        acc ++ [(pr.1, ⟨pr.1, pr.2.1, pr.2.2, now⟩)]
      else acc)
    st

/-- The ended-pid scan (src/main.py lines 593-596): sessions whose pid
is no longer classified this tick or whose process no longer exists. -/
def tick_ended (st1 : List (Nat × Session))
    (running : List (Nat × (PyStr × PyStr))) (alive : Nat → Bool) : List Nat :=
  (st1.map Prod.fst).filter
    (fun pid => (alookup pid running).isNone || !alive pid)

/-- One full tick of the loop body (src/main.py lines 571-614): start
new sessions, pop and finalize ended ones, and attempt exactly one sink
append per finalized record.  `appendOk` gives each attempt's outcome;
a failed append is only logged (`except HttpError`), so the returned
state does not depend on it.  The attempts are returned as
payload/outcome pairs. -/
def tick (appendOk : SessionPayload → Bool) (st : List (Nat × Session))
    (i : TickInput) : List (Nat × Session) × List (SessionPayload × Bool) :=
  let st1 := tick_start st i.running i.now
  let ended := tick_ended st1 i.running i.alive
  let fin := st1.filter (fun e => ended.contains e.1)
  let st2 := st1.filter (fun e => !ended.contains e.1)
  (st2, fin.map (fun e => (e.2.finalize i.now, appendOk (e.2.finalize i.now))))

/-- The tracker-state trace of the polling loop over a list of tick
inputs. -/
def run_states (appendOk : SessionPayload → Bool) (st : List (Nat × Session)) :
    List TickInput → List (List (Nat × Session))
  | [] => []
  | i :: rest =>
    (tick appendOk st i).1 :: run_states appendOk (tick appendOk st i).1 rest

/-- Helper: `alookup` misses exactly the keys absent from the list. -/
theorem alookup_eq_none_iff {α : Type} (k : Nat) (l : List (Nat × α)) :
    alookup k l = none ↔ k ∉ l.map Prod.fst := by
  induction l with
  | nil => simp [alookup]
  | cons e t ih =>
    obtain ⟨k', v⟩ := e
    by_cases hk : k = k'
    · subst hk
      simp [alookup]
    · simp [alookup, hk, ih]

/-- Helper: a binding found in the left part of an append is returned. -/
theorem alookup_append_left {α : Type} {k : Nat} {l1 : List (Nat × α)}
    (l2 : List (Nat × α)) {v : α} (h : alookup k l1 = some v) :
    alookup k (l1 ++ l2) = some v := by
  induction l1 with
  | nil => simp [alookup] at h
  | cons e t ih =>
    obtain ⟨k', w⟩ := e
    by_cases hk : k = k'
    · subst hk
      simp only [alookup, if_pos rfl] at h ⊢
      exact h
    · simp only [alookup, if_neg hk] at h ⊢
      exact ih h

/-- Helper: starting new sessions never touches an existing binding. -/
theorem alookup_tick_start (running : List (Nat × (PyStr × PyStr))) (now : ℚ)
    {st : List (Nat × Session)} {pid : Nat} {s0 : Session}
    (h : alookup pid st = some s0) :
    alookup pid (tick_start st running now) = some s0 := by
  unfold tick_start
  induction running generalizing st with
  | nil => exact h
  | cons pr rest ih =>
    rw [List.foldl_cons]
    by_cases hnew : alookup pr.1 st = none
    · rw [if_pos hnew]
      exact ih (alookup_append_left _ h)
    · rw [if_neg hnew]
      exact ih h

/-- Helper: starting new sessions preserves key distinctness. -/
theorem tick_start_nodup {running : List (Nat × (PyStr × PyStr))} {now : ℚ}
    {st : List (Nat × Session)} (h : (st.map Prod.fst).Nodup) :
    ((tick_start st running now).map Prod.fst).Nodup := by
  unfold tick_start
  induction running generalizing st with
  | nil => exact h
  | cons pr rest ih =>
    rw [List.foldl_cons]
    by_cases hnew : alookup pr.1 st = none
    · rw [if_pos hnew]
      refine ih ?_
      rw [List.map_append, List.map_cons, List.map_nil]
      rw [List.nodup_append]
      refine ⟨h, List.nodup_singleton _, ?_⟩
      intro a ha hb
      rw [List.mem_singleton] at hb
      subst hb
      exact (alookup_eq_none_iff _ _).mp hnew ha
    · rw [if_neg hnew]
      exact ih h

/-- Helper: a pid that ended is absent from the filtered state. -/
theorem alookup_filter_out {pid : Nat} {ended : List Nat}
    (l : List (Nat × Session)) (h : ended.contains pid = true) :
    alookup pid (l.filter (fun e => !ended.contains e.1)) = none := by
  induction l with
  | nil => rfl
  | cons e t ih =>
    obtain ⟨k', v⟩ := e
    rw [List.filter_cons]
    by_cases hc : ended.contains k' = true
    · have hmem : k' ∈ ended := by simpa using hc
      rw [if_neg (by simpa using hmem)]
      exact ih
    · have hnm : k' ∉ ended := by simpa using hc
      have hne : pid ≠ k' := fun hp => hc (hp ▸ h)
      rw [if_pos (by simpa using hnm)]
      simp only [alookup]
      rw [if_neg hne]
      exact ih

/-- Helper: on a duplicate-free state, filtering either keeps a binding
unchanged or removes the key entirely. -/
theorem alookup_filter_of_nodup {pid : Nat} {s0 : Session}
    {l : List (Nat × Session)} (p : Nat × Session → Bool)
    (hnd : (l.map Prod.fst).Nodup) (h : alookup pid l = some s0) :
    alookup pid (l.filter p) = some s0 ∨ alookup pid (l.filter p) = none := by
  induction l with
  | nil => simp [alookup] at h
  | cons e t ih =>
    rw [List.map_cons, List.nodup_cons] at hnd
    rw [List.filter_cons]
    by_cases hk : pid = e.1
    · subst hk
      rw [alookup] at h
      obtain ⟨k', v⟩ := e
      rw [if_pos rfl] at h
      by_cases hp : p (k', v) = true
      · rw [if_pos hp]
        left
        rw [alookup, if_pos rfl]
        exact h
      · rw [if_neg hp]
        right
        rw [alookup_eq_none_iff]
        intro hm
        exact hnd.1 (((List.filter_sublist t).map Prod.fst).mem hm)
    · rw [alookup] at h
      obtain ⟨k', v⟩ := e
      rw [if_neg hk] at h
      by_cases hp : p (k', v) = true
      · rw [if_pos hp]
        rw [alookup, if_neg hk]
        exact ih hnd.2 h
      · rw [if_neg hp]
        exact ih hnd.2 h

/-- C5: when the sink append for a finalized record fails, the record is
dropped with no retry (exactly one append attempt per finalized
session), the Session is not restored to the tracker (the ended pid is
absent from the new state), and the loop's whole future state trace is
identical to the one where every append succeeds: the loop continues. -/
theorem append_failure_drops_record (appendOk : SessionPayload → Bool)
    (st : List (Nat × Session)) (i : TickInput) (pid : Nat)
    (h : pid ∈ tick_ended (tick_start st i.running i.now) i.running i.alive) :
    alookup pid (tick appendOk st i).1 = none
      ∧ (tick appendOk st i).2.length
          = (tick_ended (tick_start st i.running i.now) i.running i.alive).length
      ∧ ∀ inputs : List TickInput,
          run_states appendOk st inputs = run_states (fun _ => true) st inputs := by
  refine ⟨?_, ?_, ?_⟩
  · exact alookup_filter_out _ (by simpa using h)
  · show ((tick_start st i.running i.now).filter
        (fun e => (tick_ended (tick_start st i.running i.now) i.running i.alive).contains e.1)
          |>.map _).length = _
    rw [List.length_map]
    have hcongr : (tick_start st i.running i.now).filter
        (fun e => (tick_ended (tick_start st i.running i.now) i.running i.alive).contains e.1)
        = (tick_start st i.running i.now).filter
            (fun e => (alookup e.1 i.running).isNone || !i.alive e.1) := by
      apply List.filter_congr
      intro e he
      have hmem : e.1 ∈ (tick_start st i.running i.now).map Prod.fst :=
        List.mem_map_of_mem Prod.fst he
      by_cases hq : ((alookup e.1 i.running).isNone || !i.alive e.1) = true
      · rw [hq]
        have hm2 : e.1 ∈ tick_ended (tick_start st i.running i.now) i.running i.alive := by
          unfold tick_ended
          rw [List.mem_filter]
          exact ⟨hmem, hq⟩
        simpa using hm2
      · rw [Bool.not_eq_true] at hq
        rw [hq]
        have hm2 : e.1 ∉ tick_ended (tick_start st i.running i.now) i.running i.alive := by
          unfold tick_ended
          rw [List.mem_filter]
          rintro ⟨-, hq2⟩
          rw [hq] at hq2
          exact Bool.false_ne_true hq2
        simpa using hm2
    rw [hcongr]
    unfold tick_ended
    rw [List.filter_map]
    rw [List.length_map]
    rfl
  · clear h
    intro inputs
    induction inputs generalizing st with
    | nil => rfl
    | cons i2 rest ih =>
      show (tick appendOk st i2).1 :: run_states appendOk (tick appendOk st i2).1 rest
          = (tick (fun _ => true) st i2).1
            :: run_states (fun _ => true) (tick (fun _ => true) st i2).1 rest
      rw [ih]
      rfl

/-- C5 witness: a tracked pid that disappears while every append fails
is finalized and stays out of the tracker state. -/
theorem append_failure_drops_record_witness :
    5 ∈ tick_ended
        (tick_start [(5, ⟨5, pstr ("g.exe"), pstr ("G"), 0⟩)] [] 60) [] (fun _ => false)
      ∧ alookup 5 (tick (fun _ => false) [(5, ⟨5, pstr ("g.exe"), pstr ("G"), 0⟩)]
          { running := [], alive := fun _ => false, now := 60 }).1 = none :=
  ⟨by decide,
   (append_failure_drops_record (fun _ => false)
      [(5, ⟨5, pstr ("g.exe"), pstr ("G"), 0⟩)]
      { running := [], alive := fun _ => false, now := 60 } 5 (by decide)).1⟩

/-- C6: a tick preserves "at most one live Session per pid" (no
duplicate pids in the tracker), and a Session surviving a tick is the
identical object created earlier: its exe name and display name never
change, whatever later ticks classify for the same pid. -/
theorem tick_single_session_per_pid (appendOk : SessionPayload → Bool)
    (st : List (Nat × Session)) (i : TickInput)
    (hnd : (st.map Prod.fst).Nodup) :
    ((tick appendOk st i).1.map Prod.fst).Nodup
      ∧ ∀ pid s0, alookup pid st = some s0 →
          alookup pid (tick appendOk st i).1 = some s0
            ∨ alookup pid (tick appendOk st i).1 = none := by
  have hnd1 : ((tick_start st i.running i.now).map Prod.fst).Nodup :=
    tick_start_nodup hnd
  constructor
  · exact hnd1.sublist ((List.filter_sublist _).map Prod.fst)
  · intro pid s0 h0
    exact alookup_filter_of_nodup _ hnd1
      (alookup_tick_start i.running i.now h0)

/-- C6 witness: a pid re-classified under a different name keeps its
original Session object through the tick. -/
theorem tick_single_session_per_pid_witness :
    ((tick (fun _ => true) [(5, ⟨5, pstr ("g.exe"), pstr ("G"), 0⟩)]
        { running := [(5, (pstr ("other.exe"), pstr ("Other")))],
          alive := fun _ => true, now := 60 }).1.map Prod.fst).Nodup
      ∧ (alookup 5 (tick (fun _ => true) [(5, ⟨5, pstr ("g.exe"), pstr ("G"), 0⟩)]
            { running := [(5, (pstr ("other.exe"), pstr ("Other")))],
              alive := fun _ => true, now := 60 }).1
            = some ⟨5, pstr ("g.exe"), pstr ("G"), 0⟩
          ∨ alookup 5 (tick (fun _ => true) [(5, ⟨5, pstr ("g.exe"), pstr ("G"), 0⟩)]
              { running := [(5, (pstr ("other.exe"), pstr ("Other")))],
                alive := fun _ => true, now := 60 }).1 = none) :=
  ⟨(tick_single_session_per_pid (fun _ => true) _ _ (by decide)).1,
   (tick_single_session_per_pid (fun _ => true) _ _ (by decide)).2 5 _ (by decide)⟩

/-! ## Library resolver (`_get_steam_path_from_registry`,
`_parse_libraryfolders_vdf`, `get_steam_library_common_dirs`) -/

/-- Explicit model of the effectful collaborators the resolver touches:
the registry lookup result, directory existence (ground truth), whether
`Path.is_dir` / `Path.resolve` raise `OSError` on a path, the
`resolve()` result, and the manifest file (`none` text models a failed
read).  Python set iteration is modelled as first-insertion order. -/
structure FSModel where
  registry_path : Option PyStr
  dirExists : PyStr → Bool
  isDirErr : PyStr → Bool
  resolveErr : PyStr → Bool
  resolveFn : PyStr → PyStr
  vdfFileExists : PyStr → Bool
  vdfText : Option PyStr

/-- Attempt to match the regex `"\d+"\s*"([^"]+)"` at the start of the
text; returns the capture and the rest after the match. -/
def matchNumKey (s : PyStr) : Option (PyStr × PyStr) :=
  match s with
  | 34 :: rest =>
    let ds := rest.takeWhile isDigitB
    if ds.isEmpty then none
    else
      match rest.drop ds.length with
      | 34 :: rest2 =>
        let ws := rest2.takeWhile isWsB
        match rest2.drop ws.length with
        | 34 :: rest3 =>
          let cap := rest3.takeWhile (fun c => !(c == 34))
          if cap.isEmpty then none
          else
            match rest3.drop cap.length with
            | 34 :: rest4 => some (cap, rest4)
            | _ => none
        | _ => none
      | _ => none
  | _ => none

/-- Attempt to match the regex `"path"\s*"([^"]+)"` (compiled with
`re.IGNORECASE`) at the start of the text. -/
def matchPathKey (s : PyStr) : Option (PyStr × PyStr) :=
  match s with
  | 34 :: p :: a :: t :: h :: 34 :: rest2 =>
    if lowerChar p = 112 ∧ lowerChar a = 97 ∧ lowerChar t = 116 ∧ lowerChar h = 104 then
      let ws := rest2.takeWhile isWsB
      match rest2.drop ws.length with
      | 34 :: rest3 =>
        let cap := rest3.takeWhile (fun c => !(c == 34))
        if cap.isEmpty then none
        else
          match rest3.drop cap.length with
          | 34 :: rest4 => some (cap, rest4)
          | _ => none
      | _ => none
    else none
  | _ => none

/-- `re.finditer`: left-to-right non-overlapping matches; on a failed
match the scan advances one character.  The fuel starts at the text
length (every step consumes at least one character). -/
def scanMatches (m : PyStr → Option (PyStr × PyStr)) : Nat → PyStr → List PyStr
  | 0, _ => []
  | _ + 1, [] => []
  | fuel + 1, c :: cs =>
    match m (c :: cs) with
    | some (cap, rest) => cap :: scanMatches m fuel rest
    | none => scanMatches m fuel cs

/-- All matches of a pattern in a text. -/
def scanAll (m : PyStr → Option (PyStr × PyStr)) (s : PyStr) : List PyStr :=
  scanMatches m s.length s

/-- Python `set.add`, with the set as an insertion-ordered list. -/
def setAdd (seen : List PyStr) (x : PyStr) : List PyStr :=
  if x ∈ seen then seen else seen ++ [x]

/-- Python `set.update`. -/
def setExtend (seen : List PyStr) (xs : List PyStr) : List PyStr :=
  xs.foldl setAdd seen

/-- `_parse_libraryfolders_vdf` (src/main.py lines 125-154): a missing
or unreadable manifest contributes nothing; otherwise both regex
patterns are collected into a set and every nonempty value is
`normpath`ed into the result set. -/
def parse_libraryfolders_vdf (fs : FSModel) (vdf_path : PyStr) : List PyStr :=
  if !fs.vdfFileExists vdf_path then []
  else
    match fs.vdfText with
    | none => []
    | some text =>
      let libs := setExtend (setExtend [] (scanAll matchNumKey text))
        (scanAll matchPathKey text)
      setExtend [] ((libs.filter (fun p => !p.isEmpty)).map normpath)

/-- `str(Path(base) / part1 / part2 ...)` for plain (separator-free)
appended parts. -/
def pathJoin (base : PyStr) (parts : List PyStr) : PyStr :=
  pathStr ⟨(parsePath base).drive, (parsePath base).root, (parsePath base).comps ++ parts⟩

/-- `os.path.isdir`: swallows OS errors and reports `false` for them. -/
def osPathIsDir (fs : FSModel) (p : PyStr) : Bool :=
  if fs.isDirErr p then false else fs.dirExists p

/-- The per-library body of the `common_dirs` loop (src/main.py lines
177-183).  `try: if common_dir.is_dir(): append(normcase(resolve()))
except OSError: append(normcase(normpath(common_dir)))`: an `is_dir` or
`resolve` error appends the normalized path without any existence
check; a non-directory contributes nothing. -/
def commonDirEntry (fs : FSModel) (lib : PyStr) : Option PyStr :=
  let c := pathJoin lib [pstr ("steamapps"), pstr ("common")]
  if fs.isDirErr c then some (normcase (normpath c))
  else if fs.dirExists c then
    (if fs.resolveErr c then some (normcase (normpath c))
     else some (normcase (fs.resolveFn c)))
  else none

/-- The `libs` set of `get_steam_library_common_dirs` (src/main.py lines
159-173): registry path or the default install path; when that
directory exists, itself (normalized) plus the manifest's libraries. -/
def steamLibs (fs : FSModel) : List PyStr :=
  let steam_path := fs.registry_path.getD (pstr ("C:\\Program Files (x86)\\Steam"))
  if osPathIsDir fs steam_path then
    setExtend (setAdd [] (normpath steam_path))
      (parse_libraryfolders_vdf fs
        (pathJoin steam_path [pstr ("steamapps"), pstr ("libraryfolders.vdf")]))
  else []

/-- The final dedup loop of `get_steam_library_common_dirs` (src/main.py
lines 186-191): a seen-set plus an output list. -/
def dedupSeen : List PyStr → List PyStr → List PyStr
  | _, [] => []
  | seen, d :: ds => if d ∈ seen then dedupSeen seen ds else d :: dedupSeen (d :: seen) ds

/-- `get_steam_library_common_dirs` (src/main.py lines 157-192). -/
def get_steam_library_common_dirs (fs : FSModel) : List PyStr :=
  dedupSeen [] ((steamLibs fs).filterMap (commonDirEntry fs))

/-- Modelled from the spec: "deduplicate while preserving first-seen
order" — keep each element's first occurrence, in input order. -/
def specFirstSeenDedup : List PyStr → List PyStr
  | [] => []
  | d :: ds => d :: specFirstSeenDedup (ds.filter (fun x => !(x == d)))
termination_by l => l.length
decreasing_by
  simp only [List.length_cons]
  exact Nat.lt_succ_of_le (List.length_filter_le _ _)

/-- Helper: dedup only returns elements of its input. -/
theorem dedupSeen_mem_subset {seen l : List PyStr} {x : PyStr}
    (h : x ∈ dedupSeen seen l) : x ∈ l := by
  induction l generalizing seen with
  | nil => simp [dedupSeen] at h
  | cons d ds ih =>
    simp only [dedupSeen] at h
    by_cases hd : d ∈ seen
    · rw [if_pos hd] at h
      exact List.mem_cons_of_mem _ (ih h)
    · rw [if_neg hd] at h
      rcases List.mem_cons.mp h with h1 | h2
      · exact h1 ▸ List.mem_cons_self _ _
      · exact List.mem_cons_of_mem _ (ih h2)

/-- Helper: the seen-set dedup loop emits no duplicates and nothing
already seen. -/
theorem dedupSeen_nodup (seen l : List PyStr) :
    (dedupSeen seen l).Nodup ∧ ∀ x ∈ dedupSeen seen l, x ∉ seen := by
  induction l generalizing seen with
  | nil => simp [dedupSeen]
  | cons d ds ih =>
    simp only [dedupSeen]
    by_cases hd : d ∈ seen
    · rw [if_pos hd]
      exact ih seen
    · rw [if_neg hd]
      obtain ⟨h1, h2⟩ := ih (d :: seen)
      refine ⟨List.nodup_cons.mpr ⟨?_, h1⟩, ?_⟩
      · intro hmem
        exact (h2 d hmem) (List.mem_cons_self d seen)
      · intro x hx
        rcases List.mem_cons.mp hx with rfl | hx2
        · exact hd
        · intro hxs
          exact (h2 x hx2) (List.mem_cons_of_mem _ hxs)

/-- Helper: the code's seen-set dedup loop computes exactly the spec's
first-seen-order deduplication. -/
theorem dedupSeen_eq_spec (seen l : List PyStr) :
    dedupSeen seen l
      = specFirstSeenDedup (l.filter (fun x => decide (x ∉ seen))) := by
  induction l generalizing seen with
  | nil => simp [dedupSeen, specFirstSeenDedup]
  | cons d ds ih =>
    simp only [dedupSeen, List.filter_cons]
    by_cases hd : d ∈ seen
    · rw [if_pos hd, if_neg (by simp [hd])]
      exact ih seen
    · rw [if_neg hd, if_pos (by simp [hd])]
      rw [specFirstSeenDedup]
      congr 1
      rw [ih (d :: seen), List.filter_filter]
      congr 1
      apply List.filter_congr
      intro x hx
      by_cases h1 : x ∈ seen <;> by_cases h2 : x = d <;>
        simp [h1, h2, List.mem_cons]

/-- C4 counterexample filesystem: the registry points at an existing
Steam root, the manifest is unreadable, and the `is_dir` check on the
derived common directory raises `OSError` while that directory does not
exist. -/
def fsErrCase : FSModel :=
  { registry_path := some (pstr ("c:\\steam"))
    dirExists := fun p => p == pstr ("c:\\steam")
    isDirErr := fun p => p == pstr ("c:\\steam\\steamapps\\common")
    resolveErr := fun _ => false
    resolveFn := fun p => p
    vdfFileExists := fun _ => false
    vdfText := none }

/-- C4 counterexample: when the `is_dir` check raises `OSError`, the
resolver's `except` branch appends the normalized path without any
existence check, so the returned sequence contains a directory that does
not exist on disk at resolution time. -/
theorem resolver_entry_not_existing :
    get_steam_library_common_dirs fsErrCase
        = [pstr ("c:\\steam\\steamapps\\common")]
      ∧ fsErrCase.dirExists (pstr ("c:\\steam\\steamapps\\common")) = false := by
  decide

/-- C4 amended: the resolver's output has no duplicate entries and is
exactly the first-seen-order deduplication of the discovered
common-directory sequence; and every returned entry comes from some
discovered library's common directory such that, whenever that entry's
own `is_dir` and `resolve` checks completed without an OS error (and
existence of that directory is stable under `resolve` composed with
case folding), the entry is a directory existing on disk.  Entries
whose own check raised an OS error are appended unverified by the
fallback branch. -/
theorem resolver_dedup_and_existence (fs : FSModel) :
    (get_steam_library_common_dirs fs).Nodup
      ∧ get_steam_library_common_dirs fs
          = specFirstSeenDedup ((steamLibs fs).filterMap (commonDirEntry fs))
      ∧ ∀ d ∈ get_steam_library_common_dirs fs,
          ∃ lib ∈ steamLibs fs,
            commonDirEntry fs lib = some d
            ∧ (fs.isDirErr (pathJoin lib [pstr ("steamapps"), pstr ("common")]) = false →
               fs.resolveErr (pathJoin lib [pstr ("steamapps"), pstr ("common")]) = false →
               fs.dirExists (normcase (fs.resolveFn
                   (pathJoin lib [pstr ("steamapps"), pstr ("common")])))
                 = fs.dirExists (pathJoin lib [pstr ("steamapps"), pstr ("common")]) →
               fs.dirExists d = true) := by
  refine ⟨(dedupSeen_nodup [] _).1, ?_, ?_⟩
  · rw [get_steam_library_common_dirs, dedupSeen_eq_spec]
    congr 1
    apply List.filter_eq_self.mpr
    intro x _
    simp
  · intro d hd
    have hd2 : d ∈ (steamLibs fs).filterMap (commonDirEntry fs) :=
      dedupSeen_mem_subset hd
    rw [List.mem_filterMap] at hd2
    obtain ⟨lib, hlib, hentry⟩ := hd2
    refine ⟨lib, hlib, hentry, ?_⟩
    intro h1 h2 h3
    unfold commonDirEntry at hentry
    dsimp only at hentry
    have hc1 : ¬ (fs.isDirErr (pathJoin lib [pstr ("steamapps"), pstr ("common")]) = true) := by
      rw [h1]
      exact Bool.false_ne_true
    rw [if_neg hc1] at hentry
    by_cases hex : fs.dirExists (pathJoin lib [pstr ("steamapps"), pstr ("common")]) = true
    · rw [if_pos hex] at hentry
      have hc2 : ¬ (fs.resolveErr (pathJoin lib [pstr ("steamapps"), pstr ("common")]) = true) := by
        rw [h2]
        exact Bool.false_ne_true
      rw [if_neg hc2] at hentry
      injection hentry with hd3
      rw [← hd3, h3]
      exact hex
    · rw [if_neg hex] at hentry
      exact absurd hentry (by simp)

/-- C4 witness filesystem: everything exists, nothing raises, the
manifest holds an old-format entry, a new-format entry, and a duplicate. -/
def fsOkCase : FSModel :=
  { registry_path := some (pstr ("c:\\steam"))
    dirExists := fun _ => true
    isDirErr := fun _ => false
    resolveErr := fun _ => false
    resolveFn := fun p => p
    vdfFileExists := fun _ => true
    vdfText := some (pstr ("\"0\"  \"C:\\Games\"  \"path\" \"D:\\SteamLib\"  \"path\" \"C:\\Games\"")) }

/-- C4 witness: on an error-free filesystem the resolver returns three
deduplicated library common directories, each of which exists (by the
per-entry implication, its own checks having raised no OS error). -/
theorem resolver_dedup_and_existence_witness :
    get_steam_library_common_dirs fsOkCase
        = [pstr ("c:\\steam\\steamapps\\common"),
           pstr ("c:\\games\\steamapps\\common"),
           pstr ("d:\\steamlib\\steamapps\\common")]
      ∧ (get_steam_library_common_dirs fsOkCase).Nodup
      ∧ ∀ d ∈ get_steam_library_common_dirs fsOkCase, fsOkCase.dirExists d = true :=
  ⟨by decide, (resolver_dedup_and_existence fsOkCase).1,
   fun d hd => by
     obtain ⟨lib, -, -, himp⟩ := (resolver_dedup_and_existence fsOkCase).2.2 d hd
     exact himp rfl rfl rfl⟩

/-! ## Claim C9: case-insensitivity of the path classifier -/

/-- Two strings are case variants: same length, characterwise equal up
to ASCII case. -/
def caseVariantB : PyStr → PyStr → Bool
  | [], [] => true
  | c :: cs, d :: ds => lowerChar c == lowerChar d && caseVariantB cs ds
  | _, _ => false

/-- Helper: case variance is exactly equality after lowercasing. -/
theorem caseVariantB_iff_lower {s t : PyStr} :
    caseVariantB s t = true ↔ lowerStr s = lowerStr t := by
  induction s generalizing t with
  | nil => cases t <;> simp [caseVariantB, lowerStr]
  | cons c cs ih =>
    cases t with
    | nil => simp [caseVariantB, lowerStr]
    | cons d ds =>
      simp [caseVariantB, lowerStr, Bool.and_eq_true, beq_iff_eq] at ih ⊢
      intro _
      exact ih

/-- Helper: non-letter characters are fixed by case mapping and nothing
lowercases onto them. -/
theorem lowerChar_eq_symbol {X c : Nat}
    (hX : X < 65 ∨ (90 < X ∧ X < 97) ∨ 122 < X) :
    lowerChar c = X ↔ c = X := by
  unfold lowerChar
  split_ifs <;> omega

/-- Helper: lowercasing a character is idempotent. -/
theorem lowerChar_idem (c : Nat) : lowerChar (lowerChar c) = lowerChar c := by
  unfold lowerChar
  split_ifs <;> omega

/-- Helper: uppercasing ignores a prior lowercasing. -/
theorem upperChar_lowerChar (c : Nat) : upperChar (lowerChar c) = upperChar c := by
  unfold upperChar lowerChar
  split_ifs <;> omega

/-- Helper: letterhood is case-invariant. -/
theorem isAlphaB_lowerChar (c : Nat) : isAlphaB (lowerChar c) = isAlphaB c := by
  unfold isAlphaB lowerChar
  rw [decide_eq_decide]
  split_ifs <;> omega

/-- Helper: whitespace is case-invariant. -/
theorem isWsB_lowerChar (c : Nat) : isWsB (lowerChar c) = isWsB c := by
  unfold isWsB lowerChar
  rw [decide_eq_decide]
  split_ifs <;> omega

/-- Helper: non-letters are fixed by lowercasing. -/
theorem lowerChar_nonalpha {c : Nat} (h : isAlphaB c = false) : lowerChar c = c := by
  unfold isAlphaB at h
  rw [decide_eq_false_iff_not] at h
  unfold lowerChar
  split_ifs with h2
  · exact absurd (Or.inl h2) h
  · rfl

/-- Helper: separator fixing commutes with lowercasing. -/
theorem slashFix_lowerChar (c : Nat) : slashFix (lowerChar c) = lowerChar (slashFix c) := by
  unfold slashFix lowerChar
  split_ifs <;> omega

/-- Helper: equality against a fixed symbol character as `==`. -/
theorem beq_lowerChar_symbol {X : Nat}
    (hX : X < 65 ∨ (90 < X ∧ X < 97) ∨ 122 < X) (c : Nat) :
    (lowerChar c == X) = (c == X) := by
  by_cases h : c = X
  · subst h
    rw [(lowerChar_eq_symbol hX).mpr rfl]
  · have h2 : lowerChar c ≠ X := fun hx => h ((lowerChar_eq_symbol hX).mp hx)
    simp [h, h2]

/-- Helper: a string of non-letter symbols is reached by lowercasing
only from itself. -/
theorem lowerStr_eq_symbol (u : PyStr) :
    ∀ v : PyStr, (∀ X ∈ v, X < 65 ∨ (90 < X ∧ X < 97) ∨ 122 < X) →
      (lowerStr u = v ↔ u = v) := by
  induction u with
  | nil =>
    intro v hv
    cases v <;> simp [lowerStr]
  | cons c cs ih =>
    intro v hv
    cases v with
    | nil => simp [lowerStr]
    | cons X vs =>
      simp only [lowerStr, List.map_cons, List.cons.injEq]
      rw [lowerChar_eq_symbol (hv X (List.mem_cons_self _ _))]
      have := ih vs (fun Y hY => hv Y (List.mem_cons_of_mem _ hY))
      rw [lowerStr] at this
      rw [this]

/-- Helper: `==` against a fixed symbol string is case-invariant. -/
theorem beq_lowerStr_symbol {v : PyStr}
    (hv : ∀ X ∈ v, X < 65 ∨ (90 < X ∧ X < 97) ∨ 122 < X) (u : PyStr) :
    (lowerStr u == v) = (u == v) := by
  by_cases h : u = v
  · subst h
    rw [((lowerStr_eq_symbol u u) hv).mpr rfl]
  · have h2 : lowerStr u ≠ v := fun hx => h (((lowerStr_eq_symbol u v) hv).mp hx)
    simp [h, h2]

/-- Helper: lowercasing a string is idempotent. -/
theorem lowerStr_idem (s : PyStr) : lowerStr (lowerStr s) = lowerStr s := by
  unfold lowerStr
  rw [List.map_map]
  exact List.map_congr_left (fun c _ => lowerChar_idem c)

/-- Helper: strings with equal lowercasings are simultaneously empty. -/
theorem eq_nil_iff_of_lower {s t : PyStr} (h : lowerStr s = lowerStr t) :
    s = [] ↔ t = [] := by
  have hl : s.length = t.length := by
    have h2 := congrArg List.length h
    simpa [lowerStr] using h2
  constructor <;> intro hx <;> subst hx
  · exact List.eq_nil_of_length_eq_zero hl.symm
  · exact List.eq_nil_of_length_eq_zero hl

/-- Helper: drive splitting commutes with lowercasing. -/
theorem splitdrive_lower (s : PyStr) :
    splitdrive (lowerStr s)
      = (lowerStr (splitdrive s).1, lowerStr (splitdrive s).2) := by
  cases s with
  | nil => rfl
  | cons a s1 =>
    cases s1 with
    | nil => rfl
    | cons b rest =>
      show splitdrive (lowerChar a :: lowerChar b :: rest.map lowerChar) = _
      by_cases hb : b = 58
      · have hb2 : lowerChar b = 58 := (lowerChar_eq_symbol (by omega)).mpr hb
        have e1 : splitdrive (a :: b :: rest) = ([a, b], rest) := by
          simp only [splitdrive]
          rw [if_pos hb]
        have e2 : splitdrive (lowerChar a :: lowerChar b :: rest.map lowerChar)
            = ([lowerChar a, lowerChar b], rest.map lowerChar) := by
          simp only [splitdrive]
          rw [if_pos hb2]
        rw [e2, e1]
        rfl
      · have hb2 : lowerChar b ≠ 58 := fun hx => hb ((lowerChar_eq_symbol (by omega)).mp hx)
        have e1 : splitdrive (a :: b :: rest) = ([], a :: b :: rest) := by
          simp only [splitdrive]
          rw [if_neg hb]
        have e2 : splitdrive (lowerChar a :: lowerChar b :: rest.map lowerChar)
            = ([], lowerChar a :: lowerChar b :: rest.map lowerChar) := by
          simp only [splitdrive]
          rw [if_neg hb2]
        rw [e2, e1]
        rfl

/-- Unfolding equation of `splitOnChar` at a cons cell. -/
theorem splitOnChar_cons (sep c : Nat) (cs : PyStr) :
    splitOnChar sep (c :: cs)
      = if c = sep then [] :: splitOnChar sep cs
        else
          match splitOnChar sep cs with
          | [] => [[c]]
          | h :: t => (c :: h) :: t := rfl

/-- Helper: the split result is never the empty list of parts. -/
theorem splitOnChar_ne_nil (sep : Nat) (s : PyStr) : splitOnChar sep s ≠ [] := by
  induction s with
  | nil => simp [splitOnChar]
  | cons c cs ih =>
    rw [splitOnChar_cons]
    by_cases hc : c = sep
    · rw [if_pos hc]
      simp
    · rw [if_neg hc]
      cases h : splitOnChar sep cs <;> simp

/-- Helper: splitting on the separator commutes with lowercasing. -/
theorem splitOnChar_lower (s : PyStr) :
    splitOnChar 92 (lowerStr s) = (splitOnChar 92 s).map lowerStr := by
  induction s with
  | nil => rfl
  | cons c cs ih =>
    show splitOnChar 92 (lowerChar c :: lowerStr cs) = _
    rw [splitOnChar_cons, splitOnChar_cons, ih]
    by_cases hc : c = 92
    · rw [if_pos ((lowerChar_eq_symbol (by omega)).mpr hc), if_pos hc]
      rfl
    · have hc2 : lowerChar c ≠ 92 := fun hx => hc ((lowerChar_eq_symbol (by omega)).mp hx)
      rw [if_neg hc2, if_neg hc]
      cases h : splitOnChar 92 cs with
      | nil => exact absurd h (splitOnChar_ne_nil 92 cs)
      | cons h1 t1 => rfl

/-- Helper: joining on the separator commutes with lowercasing. -/
theorem joinWith_lower (l : List PyStr) :
    joinWith 92 (l.map lowerStr) = lowerStr (joinWith 92 l) := by
  induction l with
  | nil => rfl
  | cons x xs ih =>
    cases xs with
    | nil => rfl
    | cons y ys =>
      show joinWith 92 (lowerStr x :: lowerStr y :: ys.map lowerStr) = _
      have h1 : joinWith 92 (lowerStr x :: lowerStr y :: ys.map lowerStr)
          = lowerStr x ++ 92 :: joinWith 92 (lowerStr y :: ys.map lowerStr) := rfl
      have h2 : joinWith 92 (x :: y :: ys) = x ++ 92 :: joinWith 92 (y :: ys) := rfl
      rw [h1, h2]
      have h3 : joinWith 92 (lowerStr y :: ys.map lowerStr)
          = lowerStr (joinWith 92 (y :: ys)) := ih
      rw [h3]
      show lowerStr x ++ 92 :: lowerStr (joinWith 92 (y :: ys))
          = lowerStr (x ++ 92 :: joinWith 92 (y :: ys))
      unfold lowerStr
      rw [List.map_append, List.map_cons]
      rfl

/-- Helper: stripping leading separators commutes with lowercasing. -/
theorem dropWhile92_lower (s : PyStr) :
    (lowerStr s).dropWhile (fun c => c == 92)
      = lowerStr (s.dropWhile (fun c => c == 92)) := by
  unfold lowerStr
  rw [List.dropWhile_map]
  have h : ((fun c => c == 92) ∘ lowerChar) = (fun c : Nat => c == 92) := by
    funext c
    exact beq_lowerChar_symbol (by omega) c
  rw [h]

/-- Helper: rootedness detection is case-invariant. -/
theorem head92_lower (r : PyStr) :
    ((lowerStr r).head? == some 92) = (r.head? == some 92) := by
  cases r with
  | nil => rfl
  | cons c cs =>
    show (lowerChar c == 92) = (c == 92)
    exact beq_lowerChar_symbol (by omega) c

/-- Helper: one `normpath` component step commutes with lowercasing. -/
theorem normSt_lower (rooted : Bool) (acc : List PyStr) (comp : PyStr) :
    normSt rooted (acc.map lowerStr) (lowerStr comp)
      = (normSt rooted acc comp).map lowerStr := by
  have hnil : lowerStr comp = [] ↔ comp = [] :=
    (lowerStr_eq_symbol comp) [] (by intro X hX; simp at hX)
  have hdot : lowerStr comp = [46] ↔ comp = [46] :=
    (lowerStr_eq_symbol comp) [46] (by
      intro X hX
      rw [List.mem_singleton] at hX
      omega)
  have hdd : lowerStr comp = [46, 46] ↔ comp = [46, 46] :=
    (lowerStr_eq_symbol comp) [46, 46] (by
      intro X hX
      rcases List.mem_cons.mp hX with rfl | hX2
      · omega
      · rw [List.mem_singleton] at hX2
        omega)
  unfold normSt
  by_cases h1 : comp = [] ∨ comp = [46]
  · rw [if_pos h1, if_pos (by rw [hnil, hdot]; exact h1)]
  · rw [if_neg h1, if_neg (by rw [hnil, hdot]; exact h1)]
    by_cases h2 : comp = [46, 46]
    · rw [if_pos h2, if_pos (hdd.mpr h2)]
      cases acc with
      | nil =>
        cases rooted with
        | true => rfl
        | false =>
          show [lowerStr comp] = [comp].map lowerStr
          rfl
      | cons a rest =>
        show (if lowerStr a = [46, 46]
            then lowerStr comp :: lowerStr a :: rest.map lowerStr
            else rest.map lowerStr)
          = (if a = [46, 46] then comp :: a :: rest else rest).map lowerStr
        have ha : lowerStr a = [46, 46] ↔ a = [46, 46] :=
          (lowerStr_eq_symbol a) [46, 46] (by
            intro X hX
            rcases List.mem_cons.mp hX with rfl | hX2
            · omega
            · rw [List.mem_singleton] at hX2
              omega)
        by_cases haa : a = [46, 46]
        · rw [if_pos haa, if_pos (ha.mpr haa)]
          rfl
        · rw [if_neg haa, if_neg (fun hx => haa (ha.mp hx))]
    · rw [if_neg h2, if_neg (fun hx => h2 (hdd.mp hx))]
      rfl

/-- Helper: the whole component fold commutes with lowercasing. -/
theorem foldl_normSt_lower (rooted : Bool) (comps : List PyStr) (acc : List PyStr) :
    (comps.map lowerStr).foldl (normSt rooted) (acc.map lowerStr)
      = (comps.foldl (normSt rooted) acc).map lowerStr := by
  induction comps generalizing acc with
  | nil => rfl
  | cons c cs ih =>
    rw [List.map_cons, List.foldl_cons, List.foldl_cons, normSt_lower]
    exact ih _

/-- Helper: the component fold from the empty accumulator. -/
theorem foldl_normSt_lower_nil (rooted : Bool) (comps : List PyStr) :
    (comps.map lowerStr).foldl (normSt rooted) []
      = (comps.foldl (normSt rooted) []).map lowerStr := by
  simpa using foldl_normSt_lower rooted comps []

/-- Helper: slash fixing commutes with lowercasing, on strings. -/
theorem slashmap_lower (p : PyStr) :
    (lowerStr p).map slashFix = lowerStr (p.map slashFix) := by
  unfold lowerStr
  rw [List.map_map, List.map_map]
  exact List.map_congr_left (fun c _ => slashFix_lowerChar c)

/-- Helper: `ntpath.normpath` commutes with lowercasing. -/
theorem normpath_lower (p : PyStr) : normpath (lowerStr p) = lowerStr (normpath p) := by
  unfold normpath
  dsimp only
  rw [slashmap_lower, splitdrive_lower]
  dsimp only
  rw [head92_lower, dropWhile92_lower, splitOnChar_lower, foldl_normSt_lower_nil,
      ← List.map_reverse]
  generalize ((splitdrive (p.map slashFix)).2.head? == some 92) = rooted
  generalize hX : ((splitOnChar 92
      ((splitdrive (p.map slashFix)).2.dropWhile (fun c => c == 92))).foldl
        (normSt rooted) []).reverse = X
  generalize hD : (splitdrive (p.map slashFix)).1 = d
  by_cases hcond : (d ++ if rooted then [92] else []) = [] ∧ X = []
  · have hc2 : (lowerStr d ++ if rooted then [92] else []) = [] ∧ X.map lowerStr = [] := by
      obtain ⟨h1, h2⟩ := hcond
      rw [List.append_eq_nil] at h1
      subst h2
      rw [h1.1]
      exact ⟨by simp [lowerStr, h1.2], rfl⟩
    rw [if_pos hcond, if_pos hc2]
    rfl
  · have hc2 : ¬ ((lowerStr d ++ if rooted then [92] else []) = [] ∧ X.map lowerStr = []) := by
      rintro ⟨h1, h2⟩
      rw [List.append_eq_nil] at h1
      apply hcond
      constructor
      · rw [List.append_eq_nil]
        refine ⟨?_, h1.2⟩
        have := h1.1
        unfold lowerStr at this
        exact List.map_eq_nil_iff.mp this
      · exact List.map_eq_nil_iff.mp h2
    rw [if_neg hcond, if_neg hc2, joinWith_lower]
    show (lowerStr d ++ _) ++ _ = lowerStr ((d ++ _) ++ _)
    unfold lowerStr
    rw [List.map_append, List.map_append]
    have he : (if rooted then [92] else [] : PyStr)
        = (if rooted then [92] else [] : PyStr).map lowerChar := by
      cases rooted <;> rfl
    rw [← he]

/-- Helper: `ntpath.basename` commutes with lowercasing. -/
theorem basename_lower (p : PyStr) : basename (lowerStr p) = lowerStr (basename p) := by
  unfold basename
  rw [splitdrive_lower]
  dsimp only
  unfold lowerStr
  rw [← List.map_reverse, List.takeWhile_map]
  have h : ((fun c => !(c == 92 || c == 47)) ∘ lowerChar)
      = (fun c : Nat => !(c == 92 || c == 47)) := by
    funext c
    show (!(lowerChar c == 92 || lowerChar c == 47)) = (!(c == 92 || c == 47))
    rw [beq_lowerChar_symbol (by omega) c, beq_lowerChar_symbol (by omega) c]
  rw [h, List.map_reverse]

/-- Characterwise lowercasing of a parsed path. -/
def lowMk (pp : PyPath) : PyPath :=
  ⟨lowerStr pp.drive, pp.root, pp.comps.map lowerStr⟩

/-- Helper: `normcase` ignores a prior lowercasing. -/
theorem normcase_lower (x : PyStr) : normcase (lowerStr x) = normcase x := by
  unfold normcase
  rw [slashmap_lower, lowerStr_idem]

/-- Helper: path parsing commutes with lowercasing. -/
theorem parsePath_lower (p : PyStr) :
    parsePath (lowerStr p) = lowMk (parsePath p) := by
  unfold parsePath lowMk
  dsimp only
  rw [slashmap_lower, splitdrive_lower]
  dsimp only
  rw [head92_lower, splitOnChar_lower, List.filter_map]
  have hpred : ((fun c => !c.isEmpty && !(c == [46])) ∘ lowerStr)
      = (fun c : PyStr => !c.isEmpty && !(c == [46])) := by
    funext c
    show (!(lowerStr c).isEmpty && !(lowerStr c == [46]))
        = (!c.isEmpty && !(c == [46]))
    rw [beq_lowerStr_symbol (by
      intro X hX
      rw [List.mem_singleton] at hX
      omega) c]
    cases c <;> rfl
  rw [hpred]

/-- Helper: the anchor string of a lowercased path. -/
theorem anchor_lower (d : PyStr) (b : Bool) :
    lowerStr d ++ (if b then [92] else [])
      = lowerStr (d ++ (if b then [92] else [])) := by
  unfold lowerStr
  rw [List.map_append]
  congr 1
  cases b <;> rfl

/-- Helper: printing a path commutes with lowercasing. -/
theorem pathStr_lower (pp : PyPath) : pathStr (lowMk pp) = lowerStr (pathStr pp) := by
  unfold pathStr lowMk
  dsimp only
  by_cases hc : (pp.drive ++ if pp.root then [92] else []) = [] ∧ pp.comps = []
  · have hc2 : (lowerStr pp.drive ++ if pp.root then [92] else []) = []
        ∧ pp.comps.map lowerStr = [] := by
      obtain ⟨h1, h2⟩ := hc
      rw [List.append_eq_nil] at h1
      rw [h1.1, h2]
      exact ⟨by simp [lowerStr, h1.2], rfl⟩
    rw [if_pos hc, if_pos hc2]
    rfl
  · have hc2 : ¬ ((lowerStr pp.drive ++ if pp.root then [92] else []) = []
        ∧ pp.comps.map lowerStr = []) := by
      rintro ⟨h1, h2⟩
      rw [List.append_eq_nil] at h1
      apply hc
      constructor
      · rw [List.append_eq_nil]
        exact ⟨List.map_eq_nil_iff.mp h1.1, h1.2⟩
      · exact List.map_eq_nil_iff.mp h2
    rw [if_neg hc, if_neg hc2, joinWith_lower, anchor_lower]
    unfold lowerStr
    simp [List.map_append]

/-- Helper: the parent path of a lowercased path. -/
theorem pathParent_lowMk (pp : PyPath) :
    pathParent (lowMk pp) = lowMk (pathParent pp) := by
  unfold pathParent lowMk
  dsimp only
  rw [← List.map_dropLast]

/-- Helper: the final component of a lowercased path. -/
theorem pathName_lowMk (pp : PyPath) : pathName (lowMk pp) = lowerStr (pathName pp) := by
  unfold pathName lowMk
  dsimp only
  rw [List.getLast?_map]
  cases pp.comps.getLast? <;> rfl

/-- Helper: `str.rfind` of a symbol character is case-invariant. -/
theorem pyRfind_lower {c : Nat} (hc : c < 65 ∨ (90 < c ∧ c < 97) ∨ 122 < c)
    (s : PyStr) : pyRfind c (lowerStr s) = pyRfind c s := by
  unfold pyRfind
  have hrev : (lowerStr s).reverse = s.reverse.map lowerChar := by
    unfold lowerStr
    exact (List.map_reverse lowerChar s).symm
  rw [hrev, List.findIdx?_map]
  have hp : ((fun d => d == c) ∘ lowerChar) = (fun d : Nat => d == c) := by
    funext d
    exact beq_lowerChar_symbol hc d
  rw [hp]
  have hl : (lowerStr s).length = s.length := by simp [lowerStr]
  rw [hl]

/-- Helper: the pathlib stem rule commutes with lowercasing. -/
theorem stemOf_lower (n : PyStr) : stemOf (lowerStr n) = lowerStr (stemOf n) := by
  unfold stemOf
  dsimp only
  rw [pyRfind_lower (by omega)]
  have hl : (lowerStr n).length = n.length := by simp [lowerStr]
  rw [hl]
  by_cases hc : 0 < pyRfind 46 n ∧ pyRfind 46 n < (n.length : Int) - 1
  · rw [if_pos hc, if_pos hc]
    unfold lowerStr
    rw [List.map_take]
  · rw [if_neg hc, if_neg hc]

/-- Helper: the dash substitution commutes with lowercasing. -/
theorem subDashesGo_lower (x : PyStr) :
    ∀ b : Bool, subDashesGo b (lowerStr x) = lowerStr (subDashesGo b x) := by
  induction x with
  | nil => intro b; rfl
  | cons c cs ih =>
    intro b
    show subDashesGo b (lowerChar c :: lowerStr cs) = _
    by_cases hc : c = 95 ∨ c = 45
    · have hc2 : lowerChar c = 95 ∨ lowerChar c = 45 := by
        rcases hc with rfl | rfl
        · exact Or.inl ((lowerChar_eq_symbol (by omega)).mpr rfl)
        · exact Or.inr ((lowerChar_eq_symbol (by omega)).mpr rfl)
      simp only [subDashesGo]
      rw [if_pos hc2, if_pos hc]
      cases b with
      | true => exact ih true
      | false =>
        rw [ih true]
        rfl
    · have hc2 : ¬ (lowerChar c = 95 ∨ lowerChar c = 45) := by
        rintro (h | h)
        · exact hc (Or.inl ((lowerChar_eq_symbol (by omega)).mp h))
        · exact hc (Or.inr ((lowerChar_eq_symbol (by omega)).mp h))
      simp only [subDashesGo]
      rw [if_neg hc2, if_neg hc, ih false]
      rfl

/-- Helper: stripping commutes with lowercasing. -/
theorem pyStrip_lower (s : PyStr) : pyStrip (lowerStr s) = lowerStr (pyStrip s) := by
  have hws : (isWsB ∘ lowerChar) = isWsB := funext isWsB_lowerChar
  unfold pyStrip lowerStr
  rw [List.dropWhile_map, hws, ← List.map_reverse, List.dropWhile_map, hws,
      ← List.map_reverse]

/-- Helper: the whitespace-run collapse commutes with lowercasing. -/
theorem collapseGo_lower (y : PyStr) :
    ∀ b : Bool, collapseGo b (lowerStr y) = lowerStr (collapseGo b y) := by
  induction y with
  | nil =>
    intro b
    cases b <;> rfl
  | cons c cs ih =>
    intro b
    cases b with
    | true =>
      show (if isWsB (lowerChar c) then collapseGo true (lowerStr cs)
          else lowerChar c :: collapseGo false (lowerStr cs))
        = lowerStr (if isWsB c then collapseGo true cs else c :: collapseGo false cs)
      rw [isWsB_lowerChar]
      by_cases hw : isWsB c = true
      · rw [if_pos hw, if_pos hw]
        exact ih true
      · rw [if_neg hw, if_neg hw, ih false]
        rfl
    | false =>
      cases cs with
      | nil =>
        show (if isWsB (lowerChar c) then [lowerChar c]
            else lowerChar c :: collapseGo false (lowerStr []))
          = lowerStr (if isWsB c then [c] else c :: collapseGo false [])
        rw [isWsB_lowerChar]
        by_cases hw : isWsB c = true
        · rw [if_pos hw, if_pos hw]
          rfl
        · rw [if_neg hw, if_neg hw]
          rfl
      | cons d ds =>
        show (if isWsB (lowerChar c) then
              (if isWsB (lowerChar d) then
                  32 :: collapseGo true (lowerChar d :: lowerStr ds)
                else lowerChar c :: collapseGo false (lowerChar d :: lowerStr ds))
            else lowerChar c :: collapseGo false (lowerChar d :: lowerStr ds))
          = lowerStr (if isWsB c then
              (if isWsB d then 32 :: collapseGo true (d :: ds)
                else c :: collapseGo false (d :: ds))
            else c :: collapseGo false (d :: ds))
        have hds : (lowerChar d :: lowerStr ds : PyStr) = lowerStr (d :: ds) := rfl
        rw [isWsB_lowerChar, isWsB_lowerChar, hds, ih true, ih false]
        by_cases hw : isWsB c = true
        · rw [if_pos hw, if_pos hw]
          by_cases hd : isWsB d = true
          · rw [if_pos hd, if_pos hd]
            rfl
          · rw [if_neg hd, if_neg hd]
            rfl
        · rw [if_neg hw, if_neg hw]
          rfl

/-- Helper: title-casing ignores a prior lowercasing. -/
theorem titleGo_lower (y : PyStr) : ∀ b : Bool, titleGo b (lowerStr y) = titleGo b y := by
  induction y with
  | nil => intro b; rfl
  | cons c cs ih =>
    intro b
    show titleGo b (lowerChar c :: lowerStr cs) = _
    simp only [titleGo]
    rw [isAlphaB_lowerChar, ih (isAlphaB c)]
    congr 1
    by_cases ha : isAlphaB c = true
    · rw [if_pos ha, if_pos ha]
      cases b with
      | true =>
        simp only [if_pos rfl]
        exact lowerChar_idem c
      | false =>
        simp only [Bool.false_eq_true, if_neg, if_false]
        exact upperChar_lowerChar c
    · rw [if_neg ha, if_neg ha]
      exact lowerChar_nonalpha (Bool.not_eq_true _ |>.mp ha)

/-- Helper: whitespace characters are not letters. -/
theorem ws_not_alpha {c : Nat} (h : isWsB c = true) : isAlphaB c = false := by
  unfold isWsB at h
  unfold isAlphaB
  rw [decide_eq_true_eq] at h
  rw [decide_eq_false_iff_not]
  omega

/-- Helper: the dash substitution preserves the presence of letters. -/
theorem any_alpha_subDashesGo (x : PyStr) :
    ∀ b : Bool, (subDashesGo b x).any isAlphaB = x.any isAlphaB := by
  induction x with
  | nil => intro b; rfl
  | cons c cs ih =>
    intro b
    simp only [subDashesGo]
    by_cases hc : c = 95 ∨ c = 45
    · rw [if_pos hc]
      have hca : isAlphaB c = false := by
        rcases hc with rfl | rfl <;> rfl
      cases b with
      | true =>
        rw [if_pos rfl, ih true]
        simp [List.any_cons, hca]
      | false =>
        rw [if_neg Bool.false_ne_true]
        simp only [List.any_cons]
        rw [ih true]
        have h32 : isAlphaB 32 = false := rfl
        rw [h32, hca]
    · rw [if_neg hc]
      simp [List.any_cons, ih false]

/-- Helper: dropping leading whitespace preserves the presence of
letters. -/
theorem any_alpha_dropWhile_ws (l : PyStr) :
    (l.dropWhile isWsB).any isAlphaB = l.any isAlphaB := by
  induction l with
  | nil => rfl
  | cons c cs ih =>
    rw [List.dropWhile_cons]
    by_cases hw : isWsB c = true
    · rw [if_pos hw, ih]
      simp [List.any_cons, ws_not_alpha hw]
    · rw [if_neg hw]

/-- Helper: stripping preserves the presence of letters. -/
theorem any_alpha_strip (l : PyStr) : (pyStrip l).any isAlphaB = l.any isAlphaB := by
  unfold pyStrip
  rw [List.any_reverse, any_alpha_dropWhile_ws, List.any_reverse,
      any_alpha_dropWhile_ws]

/-- Helper: the whitespace-run collapse preserves the presence of
letters. -/
theorem any_alpha_collapseGo (l : PyStr) :
    ∀ b : Bool, (collapseGo b l).any isAlphaB = l.any isAlphaB := by
  induction l with
  | nil =>
    intro b
    cases b <;> rfl
  | cons c cs ih =>
    intro b
    cases b with
    | true =>
      show (if isWsB c then collapseGo true cs else c :: collapseGo false cs).any isAlphaB = _
      by_cases hw : isWsB c = true
      · rw [if_pos hw, ih true]
        simp [List.any_cons, ws_not_alpha hw]
      · rw [if_neg hw]
        simp [List.any_cons, ih false]
    | false =>
      cases cs with
      | nil =>
        show (if isWsB c then [c] else c :: collapseGo false []).any isAlphaB = _
        by_cases hw : isWsB c = true
        · rw [if_pos hw]
        · rw [if_neg hw]
          rfl
      | cons d ds =>
        show (if isWsB c then
              (if isWsB d then 32 :: collapseGo true (d :: ds)
                else c :: collapseGo false (d :: ds))
            else c :: collapseGo false (d :: ds)).any isAlphaB = _
        by_cases hw : isWsB c = true
        · rw [if_pos hw]
          by_cases hd : isWsB d = true
          · rw [if_pos hd]
            simp only [List.any_cons]
            rw [ih true]
            simp only [List.any_cons]
            rw [ws_not_alpha hw]
            have h32 : isAlphaB 32 = false := rfl
            rw [h32]
          · rw [if_neg hd]
            simp [List.any_cons, ih false]
        · rw [if_neg hw]
          simp [List.any_cons, ih false]

/-- Helper: a string without letters is fixed by lowercasing. -/
theorem no_alpha_lower_fix {x : PyStr} (h : x.any isAlphaB = false) :
    lowerStr x = x := by
  induction x with
  | nil => rfl
  | cons c cs ih =>
    rw [List.any_cons, Bool.or_eq_false_iff] at h
    show lowerChar c :: lowerStr cs = c :: cs
    rw [lowerChar_nonalpha h.1, ih h.2]

/-- Helper: `_nice_title` ignores a prior lowercasing (title-casing
canonicalizes letter case; a no-letter input is identical to its
lowercasing). -/
theorem nice_title_lower (x : PyStr) : nice_title (lowerStr x) = nice_title x := by
  unfold nice_title
  dsimp only
  have hcomm : collapseWs (pyStrip (subDashes (lowerStr x)))
      = lowerStr (collapseWs (pyStrip (subDashes x))) := by
    unfold collapseWs subDashes
    rw [subDashesGo_lower x false, pyStrip_lower, collapseGo_lower _ false]
  rw [hcomm]
  by_cases ht : collapseWs (pyStrip (subDashes x)) = []
  · rw [if_pos ht, if_pos (by rw [ht]; rfl)]
    have hx : x.any isAlphaB = false := by
      have h1 : (collapseWs (pyStrip (subDashes x))).any isAlphaB
          = x.any isAlphaB := by
        unfold collapseWs subDashes
        rw [any_alpha_collapseGo _ false, any_alpha_strip,
            any_alpha_subDashesGo x false]
      rw [ht] at h1
      exact h1.symm
    exact no_alpha_lower_fix hx
  · have hc2 : ¬ (lowerStr (collapseWs (pyStrip (subDashes x))) = []) := by
      intro hx
      apply ht
      unfold lowerStr at hx
      exact List.map_eq_nil_iff.mp hx
    rw [if_neg ht, if_neg hc2]
    unfold pyTitle
    exact titleGo_lower _ false

/-- Helper: display-name derivation ignores a prior lowercasing of the
executable path. -/
theorem derive_lower (u : PyStr) (libs : List PyStr) :
    derive_game_name_from_path (lowerStr u) libs
      = derive_game_name_from_path u libs := by
  unfold derive_game_name_from_path
  dsimp only
  rw [parsePath_lower, pathStr_lower, normcase_lower]
  cases hm : deriveLoop (normcase (pathStr (parsePath u))) libs with
  | some g => rfl
  | none =>
    rw [pathParent_lowMk, pathName_lowMk, pathName_lowMk]
    by_cases hpn : pathName (pathParent (parsePath u)) = []
    · have h1 : lowerStr (pathName (pathParent (parsePath u))) = [] := by
        rw [hpn]
        rfl
      rw [if_pos h1, if_pos hpn, stemOf_lower, nice_title_lower]
    · have hpn2 : ¬ lowerStr (pathName (pathParent (parsePath u))) = [] := by
        intro hx
        apply hpn
        unfold lowerStr at hx
        exact List.map_eq_nil_iff.mp hx
      rw [if_neg hpn2, if_neg hpn, nice_title_lower]

/-- C9: changing only the letter case of the executable path (pid, name
and memory fixed) never changes the path-based classification: the same
match or non-match results, with the identical game identity. -/
theorem classify_steam_case_invariant (library_common_dirs : List PyStr)
    (pid : Nat) (nm : Option PyStr) (rss : Option Nat) (s t : PyStr)
    (h : caseVariantB s t = true) :
    classify_steam library_common_dirs
        { pid := pid, name := nm, exe := some s, rss := rss }
      = classify_steam library_common_dirs
          { pid := pid, name := nm, exe := some t, rss := rss } := by
  have hL : lowerStr s = lowerStr t := caseVariantB_iff_lower.mp h
  have hnil : s = [] ↔ t = [] := eq_nil_iff_of_lower hL
  have hbase : lowerStr (basename s) = lowerStr (basename t) := by
    have k1 : lowerStr (basename (lowerStr s)) = lowerStr (basename s) := by
      rw [basename_lower, lowerStr_idem]
    have k2 : lowerStr (basename (lowerStr t)) = lowerStr (basename t) := by
      rw [basename_lower, lowerStr_idem]
    rw [← k1, ← k2, hL]
  have hnorm : normcase (normpath s) = normcase (normpath t) := by
    have k1 : normcase (normpath (lowerStr s)) = normcase (normpath s) := by
      rw [normpath_lower, normcase_lower]
    have k2 : normcase (normpath (lowerStr t)) = normcase (normpath t) := by
      rw [normpath_lower, normcase_lower]
    rw [← k1, ← k2, hL]
  have hder : derive_game_name_from_path s library_common_dirs
      = derive_game_name_from_path t library_common_dirs := by
    rw [← derive_lower s library_common_dirs, ← derive_lower t library_common_dirs,
        hL]
  unfold classify_steam
  dsimp only
  simp only [Option.getD_some]
  by_cases hs : s = []
  · rw [if_pos hs, if_pos (hnil.mp hs)]
  · rw [if_neg hs, if_neg (fun hx => hs (hnil.mpr hx)), hbase, hnorm, hder]

/-- C9 witness: a fully re-cased executable path classifies identically
to the original, with the same identity. -/
theorem classify_steam_case_invariant_witness :
    caseVariantB (pstr ("C:\\Steam\\steamapps\\common\\Elden Ring\\eldenring.exe"))
        (pstr ("c:\\steam\\STEAMAPPS\\Common\\ELDEN RING\\EldenRing.EXE")) = true
      ∧ classify_steam [pstr ("c:\\steam\\steamapps\\common")]
          { pid := 9, name := none,
            exe := some (pstr ("C:\\Steam\\steamapps\\common\\Elden Ring\\eldenring.exe")),
            rss := some 3221225472 }
        = classify_steam [pstr ("c:\\steam\\steamapps\\common")]
            { pid := 9, name := none,
              exe := some (pstr ("c:\\steam\\STEAMAPPS\\Common\\ELDEN RING\\EldenRing.EXE")),
              rss := some 3221225472 } :=
  ⟨by decide,
   classify_steam_case_invariant [pstr ("c:\\steam\\steamapps\\common")] 9 none
     (some 3221225472) _ _ (by decide)⟩
